import Mathlib

/-!
Shallow embedding of the scene-editor store (`src/client/src/lib/store.ts`,
final store version) and proofs about its operations.

Modelling conventions:
* JS numbers are modelled as rationals (`ℚ`).  The trigonometric primitives
  used by the THREE.js quaternion/Euler conversions (`Math.cos`, `Math.sin`,
  `Math.asin`, `Math.atan2`) have no exact counterpart on `ℚ`; they are
  abstracted as a record of functions (`Trig`) that every operation receives,
  so theorems quantified over `Trig` hold for the real trigonometric
  functions in particular.
* A JS object used as a string-keyed table (`Record<string, SceneElement>`)
  is modelled as an association list in insertion order, because the source
  iterates tables with `Object.values` / `Object.entries`, whose order is
  the insertion order; `{...obj, [k]: v}` replaces in place when `k` exists
  and appends otherwise, and `delete` removes the key.
* `uuidv4()` results and the random position jitter of `addElement` are
  passed to each operation as explicit arguments; freshness of generated
  ids (which uuid v4 provides probabilistically) becomes a hypothesis where
  a theorem needs it.
* Array deep copies (`[...xs]`, `cloneElement`) are value copies, which in a
  functional model are identities; the clone functions are kept as named
  definitions mirroring the source.
-/

namespace SceneStore

set_option maxHeartbeats 1000000

/-- Element ids are strings (uuid v4 in the source). -/
abbrev ElemId := String

/-- A 3-component vector of JS numbers, modelled over `ℚ`. -/
structure Vec3 where
  x : ℚ
  y : ℚ
  z : ℚ
deriving DecidableEq, Repr

/-- Shorthand constructor for `Vec3`. -/
def v3 (x y z : ℚ) : Vec3 := ⟨x, y, z⟩

/-- Componentwise addition (used for position offsets). -/
def addV (a b : Vec3) : Vec3 := ⟨a.x + b.x, a.y + b.y, a.z + b.z⟩

/-- Componentwise subtraction. -/
def subV (a b : Vec3) : Vec3 := ⟨a.x - b.x, a.y - b.y, a.z - b.z⟩

/-- Componentwise multiplication (THREE.Vector3.multiply). -/
def mulV (a b : Vec3) : Vec3 := ⟨a.x * b.x, a.y * b.y, a.z * b.z⟩

/-- Componentwise minimum. -/
def minV (a b : Vec3) : Vec3 := ⟨min a.x b.x, min a.y b.y, min a.z b.z⟩

/-- Componentwise maximum. -/
def maxV (a b : Vec3) : Vec3 := ⟨max a.x b.x, max a.y b.y, max a.z b.z⟩

/-- Midpoint of two vectors, `(min + max) / 2` in the bounds computations. -/
def midV (a b : Vec3) : Vec3 := ⟨(a.x + b.x) / 2, (a.y + b.y) / 2, (a.z + b.z) / 2⟩

/-- The closed set of element kinds (`ElementType` in the source). -/
inductive ElementType where
  | box | sphere | cylinder | torus | cone | pyramid | heart | star
  | group | subtraction | mesh
deriving DecidableEq, Repr

/-- Transform gizmo mode (`TransformMode` in the source). -/
inductive TransformMode where
  | translate | rotate | scale
deriving DecidableEq, Repr

/-- The `ELEMENT_LABELS` table of the source (used for auto-generated names). -/
def ELEMENT_LABELS : ElementType → String
  | .box => "Куб"
  | .sphere => "Сфера"
  | .cylinder => "Цилиндр"
  | .torus => "Тор"
  | .cone => "Конус"
  | .pyramid => "Пирамида"
  | .heart => "Сердце"
  | .star => "Звезда"
  | .group => "Группа"
  | .subtraction => "Вычитание"
  | .mesh => "Меш"

/-- `SceneElement` of the source.  `order` is optional in the TypeScript
data that can reach the store through `loadScene`, and the source guards it
with `?? -1` / `?? 0` fallbacks, so it is modelled as `Option ℚ`. -/
structure SceneElement where
  id : ElemId
  name : String
  type : ElementType
  order : Option ℚ
  position : Vec3
  rotation : Vec3
  scale : Vec3
  color : String
  cornerRadius : Option ℚ := none
  torusThickness : Option ℚ := none
  objData : Option String := none
  parentId : Option ElemId := none
  children : Option (List ElemId) := none
deriving DecidableEq, Repr

/-- The element table: a string-keyed JS object in insertion order. -/
abbrev Elements := List (ElemId × SceneElement)

/-- Table lookup, `state.elements[id]` (`undefined` becomes `none`). -/
def getElement (els : Elements) (i : ElemId) : Option SceneElement :=
  (els.find? (fun p => p.1 == i)).map (·.2)

/-- Table write, `{ ...obj, [id]: v }` / `obj[id] = v`: replaces in place if
the key exists, appends otherwise. -/
def setElement (els : Elements) (i : ElemId) (v : SceneElement) : Elements :=
  if els.any (fun p => p.1 == i) then
    els.map (fun p => if p.1 == i then (i, v) else p)
  else
    els ++ [(i, v)]

/-- Key deletion, `ids.forEach(id => delete obj[id])`. -/
def deleteKeys (els : Elements) (ids : List ElemId) : Elements :=
  els.filter (fun p => !(ids.contains p.1))

/-- A `{elements, selection}` history snapshot. -/
structure Snapshot where
  elements : Elements
  selection : List ElemId
deriving DecidableEq, Repr

/-- The clipboard buffer of `copySelection`. -/
structure Clipboard where
  elements : List SceneElement
  selection : List ElemId
deriving DecidableEq, Repr

/-- The zustand store state (`EditorState` of the source; the action
closures are modelled as functions on this state). -/
structure EditorState where
  elements : Elements
  selection : List ElemId
  transformMode : TransformMode
  alignmentMode : Bool
  history : List Snapshot
  redoHistory : List Snapshot
  clipboard : Option Clipboard
deriving DecidableEq, Repr

/-- The initial store state. -/
def initState : EditorState :=
  { elements := []
    selection := []
    transformMode := .translate
    alignmentMode := false
    history := []
    redoHistory := []
    clipboard := none }

/-- Abstract trigonometric primitives (`Math.cos`, `Math.sin`, `Math.asin`,
`Math.atan2`).  Exact values of these transcendental functions do not exist
on `ℚ`; theorems quantify over an arbitrary `Trig`, which covers the real
trigonometric functions. -/
structure Trig where
  cos : ℚ → ℚ
  sin : ℚ → ℚ
  asin : ℚ → ℚ
  atan2 : ℚ → ℚ → ℚ

/-- A concrete `Trig` instance used to evaluate witnesses whose code paths
never consult the trigonometric values. -/
def trigFlat : Trig :=
  { cos := fun _ => 1
    sin := fun _ => 0
    asin := fun _ => 0
    atan2 := fun _ _ => 0 }

/-- Quaternion (x, y, z, w), as in THREE.Quaternion. -/
structure Quat where
  qx : ℚ
  qy : ℚ
  qz : ℚ
  qw : ℚ
deriving DecidableEq, Repr

/-- THREE.Quaternion.setFromEuler for the default XYZ order. -/
def quatFromEuler (T : Trig) (e : Vec3) : Quat :=
  let c1 := T.cos (e.x / 2)
  let c2 := T.cos (e.y / 2)
  let c3 := T.cos (e.z / 2)
  let s1 := T.sin (e.x / 2)
  let s2 := T.sin (e.y / 2)
  let s3 := T.sin (e.z / 2)
  { qx := s1 * c2 * c3 + c1 * s2 * s3
    qy := c1 * s2 * c3 - s1 * c2 * s3
    qz := c1 * c2 * s3 + s1 * s2 * c3
    qw := c1 * c2 * c3 - s1 * s2 * s3 }

/-- THREE.Quaternion.multiplyQuaternions: the product `a * b`. -/
def quatMul (a b : Quat) : Quat :=
  { qx := a.qx * b.qw + a.qw * b.qx + a.qy * b.qz - a.qz * b.qy
    qy := a.qy * b.qw + a.qw * b.qy + a.qz * b.qx - a.qx * b.qz
    qz := a.qz * b.qw + a.qw * b.qz + a.qx * b.qy - a.qy * b.qx
    qw := a.qw * b.qw - a.qx * b.qx - a.qy * b.qy - a.qz * b.qz }

/-- THREE.Quaternion.invert: the conjugate (the source applies it only to
unit quaternions). -/
def quatConjugate (q : Quat) : Quat :=
  { qx := -q.qx, qy := -q.qy, qz := -q.qz, qw := q.qw }

/-- THREE.Vector3.applyQuaternion. -/
def applyQuaternion (q : Quat) (v : Vec3) : Vec3 :=
  let tx := 2 * (q.qy * v.z - q.qz * v.y)
  let ty := 2 * (q.qz * v.x - q.qx * v.z)
  let tz := 2 * (q.qx * v.y - q.qy * v.x)
  { x := v.x + q.qw * tx + q.qy * tz - q.qz * ty
    y := v.y + q.qw * ty + q.qz * tx - q.qx * tz
    z := v.z + q.qw * tz + q.qx * ty - q.qy * tx }

/-- Math-style clamp used by THREE: `Math.max(lo, Math.min(hi, value))`. -/
def clampQ (value lo hi : ℚ) : ℚ := max lo (min hi value)

/-- THREE.Euler.setFromQuaternion for order XYZ, via the rotation matrix of
the quaternion (matrix entries as in makeRotationFromQuaternion). -/
def eulerFromQuat (T : Trig) (q : Quat) : Vec3 :=
  let m11 := 1 - 2 * (q.qy * q.qy + q.qz * q.qz)
  let m12 := 2 * (q.qx * q.qy - q.qw * q.qz)
  let m13 := 2 * (q.qx * q.qz + q.qw * q.qy)
  let m22 := 1 - 2 * (q.qx * q.qx + q.qz * q.qz)
  let m23 := 2 * (q.qy * q.qz - q.qw * q.qx)
  let m32 := 2 * (q.qy * q.qz + q.qw * q.qx)
  let m33 := 1 - 2 * (q.qx * q.qx + q.qy * q.qy)
  let ey := T.asin (clampQ m13 (-1) 1)
  if |m13| < 9999999 / 10000000 then
    ⟨T.atan2 (-m23) m33, ey, T.atan2 (-m12) m11⟩
  else
    ⟨T.atan2 m32 m22, ey, 0⟩

/-- A world transform triple as returned by `getWorldTransform`. -/
structure Transform3 where
  position : Vec3
  rotation : Vec3
  scale : Vec3
deriving DecidableEq, Repr

/-- The parent-chain walk of `getWorldTransform`.  The source's `while`
loop is modelled with fuel (`els.length` bounds any acyclic parent chain;
on a cyclic chain the source would not terminate). -/
def worldLoop (T : Trig) (els : Elements) :
    Nat → Option ElemId → Vec3 → Vec3 → Quat → Vec3 → Transform3
  | 0, _, pos, scl, _, rot => ⟨pos, rot, scl⟩
  | _ + 1, none, pos, scl, _, rot => ⟨pos, rot, scl⟩
  | fuel + 1, some pid, pos, scl, q, _ =>
    match getElement els pid with
    | none => ⟨pos, ⟨0, 0, 0⟩, scl⟩
    | some parent =>
      let parentQuaternion := quatFromEuler T parent.rotation
      let pos2 := addV (applyQuaternion parentQuaternion (mulV pos parent.scale)) parent.position
      let scl2 := mulV scl parent.scale
      let q2 := quatMul parentQuaternion q
      let rot2 := eulerFromQuat T q2
      worldLoop T els fuel parent.parentId pos2 scl2 q2 rot2

/-- `getWorldTransform` of the source: composes position, rotation and scale
through the parent chain (translation rotated and scaled by each parent,
scales multiplied componentwise, rotations composed as quaternions and read
back as Euler angles). -/
def getWorldTransform (T : Trig) (els : Elements) (e : SceneElement) : Transform3 :=
  worldLoop T els els.length e.parentId e.position e.scale (quatFromEuler T e.rotation) e.rotation

/-- `getElementHalfSize`: per-kind axis-aligned half extents. -/
def getElementHalfSize (e : SceneElement) : Vec3 :=
  match e.type with
  | .box => ⟨1/2, 1/2, 1/2⟩
  | .sphere => ⟨1, 1, 1⟩
  | .cylinder => ⟨1, 1, 1⟩
  | .torus =>
    let tube := max (5/100) (min (e.torusThickness.getD (3/10)) (95/100))
    ⟨1 + tube, tube, 1 + tube⟩
  | .cone => ⟨1, 7/10, 1⟩
  | .pyramid => ⟨1, 7/10, 1⟩
  | .heart => ⟨1, 1, 2/10⟩
  | .star => ⟨1, 1, 2/10⟩
  | .mesh => ⟨1/2, 1/2, 1/2⟩
  | _ => ⟨0, 0, 0⟩

/-- Appends an id if it is not already present (JS `Set` insertion). -/
def addUnique (acc : List ElemId) (i : ElemId) : List ElemId :=
  if acc.contains i then acc else acc ++ [i]

/-- One pass of the `collectDescendantIds` fixpoint loop: every element
whose `parentId` is already collected and whose own id is not becomes
collected, scanning the table in insertion order. -/
def descendPass (els : Elements) (acc : List ElemId) : List ElemId :=
  els.foldl
    (fun acc p =>
      match p.2.parentId with
      | some pid =>
        if acc.contains pid && !(acc.contains p.2.id) then acc ++ [p.2.id] else acc
      | none => acc)
    acc

/-- Iterates `descendPass`. -/
def iterPass (els : Elements) : Nat → List ElemId → List ElemId
  | 0, acc => acc
  | n + 1, acc => iterPass els n (descendPass els acc)

/-- `collectDescendantIds`: the descendant closure of `rootIds` under the
`parentId` relation.  The source loops until a pass adds nothing; since each
productive pass adds at least one of at most `els.length` ids,
`els.length + 1` passes always reach that fixpoint. -/
def collectDescendantIds (els : Elements) (rootIds : List ElemId) : List ElemId :=
  iterPass els (els.length + 1) (rootIds.foldl addUnique [])

/-- Stable insertion into an ascending-by-key list; an element lands after
every element of smaller-or-equal key, which reproduces the result of the
source's stable `Array.prototype.sort` with comparator `key a - key b`. -/
def insertByKey {α : Type} (key : α → ℚ) (x : α) : List α → List α
  | [] => [x]
  | y :: ys => if key y ≤ key x then y :: insertByKey key x ys else x :: y :: ys

/-- Stable ascending sort by a rational key. -/
def stableSortByKey {α : Type} (key : α → ℚ) (l : List α) : List α :=
  l.foldl (fun acc x => insertByKey key x acc) []

/-- `sortElementsByOrder`: table values sorted ascending by `order ?? 0`. -/
def sortElementsByOrder (els : Elements) : List SceneElement :=
  stableSortByKey (fun e => e.order.getD 0) (els.map (·.2))

/-- `getNextOrder`: `(orders.length ? Math.max(...orders) : -1) + 1` with
`order ?? -1` per element. -/
def getNextOrder (els : Elements) : ℚ :=
  (match els.map (fun p => p.2.order.getD (-1)) with
   | [] => -1
   | o :: os => os.foldl max o) + 1

/-- `ensureElementOrder`: keeps numeric orders and assigns sequential fresh
orders (starting after the current maximum) to elements lacking one. -/
def ensureElementOrder (els : Elements) : Elements :=
  let orders := els.filterMap (fun p => p.2.order)
  let start := (match orders with
    | [] => -1
    | o :: os => os.foldl max o) + 1
  (els.foldl
    (fun (acc : Elements × ℚ) p =>
      match p.2.order with
      | some _ => (acc.1 ++ [p], acc.2)
      | none => (acc.1 ++ [(p.1, { p.2 with order := some acc.2 })], acc.2 + 1))
    ([], start)).1

/-- `cloneElement`: rebuilds the element with copied component arrays; in
this value-semantics model the copy has the same value. -/
def cloneElement (e : SceneElement) : SceneElement :=
  { e with
    position := e.position
    rotation := e.rotation
    scale := e.scale
    children := e.children }

/-- `cloneElements`: entrywise `cloneElement` over the table. -/
def cloneElements (els : Elements) : Elements :=
  els.map (fun p => (p.1, cloneElement p.2))

/-- `MAX_HISTORY` of the source. -/
def MAX_HISTORY : Nat := 50

/-- `xs.slice(-MAX_HISTORY)` after appending one snapshot. -/
def pushCap (h : List Snapshot) (x : Snapshot) : List Snapshot :=
  let h2 := h ++ [x]
  h2.drop (h2.length - MAX_HISTORY)

/-- `buildSnapshot`: a deep copy of `{elements, selection}`. -/
def buildSnapshot (s : EditorState) : Snapshot :=
  ⟨cloneElements s.elements, s.selection⟩

/-- `pushHistory`: appends a deep-copied snapshot of the current state and
keeps the newest `MAX_HISTORY` entries. -/
def pushHistory (s : EditorState) : List Snapshot :=
  pushCap s.history ⟨cloneElements s.elements, s.selection⟩

/-- One step of the bounding-box fold shared by `getSelectionCenter` and
`getSelectionBounds`: missing elements and `group`/`subtraction` containers
contribute nothing; every other element contributes its world-space
axis-aligned box (half extents scaled by the world scale).  The source's
`Infinity` sentinels are modelled by `none` for "nothing contributed yet". -/
def boundsStep (T : Trig) (els : Elements) (acc : Option (Vec3 × Vec3)) (i : ElemId) :
    Option (Vec3 × Vec3) :=
  match getElement els i with
  | none => acc
  | some e =>
    if e.type = .group ∨ e.type = .subtraction then acc
    else
      let w := getWorldTransform T els e
      let scaledHalf := mulV (getElementHalfSize e) w.scale
      let lo := subV w.position scaledHalf
      let hi := addV w.position scaledHalf
      match acc with
      | none => some (lo, hi)
      | some (mn, mx) => some (minV mn lo, maxV mx hi)

/-- The id list whose boxes are folded: the descendant closure when
`includeDescendants` is set, the ids themselves otherwise. -/
def idsForBounds (els : Elements) (ids : List ElemId) (includeDescendants : Bool) :
    List ElemId :=
  if includeDescendants then collectDescendantIds els ids else ids

/-- `getSelectionCenter`: center of the combined world bounding box, or the
origin when nothing contributes bounds. -/
def getSelectionCenter (T : Trig) (els : Elements) (ids : List ElemId)
    (includeDescendants : Bool) : Vec3 :=
  match (idsForBounds els ids includeDescendants).foldl (boundsStep T els) none with
  | none => ⟨0, 0, 0⟩
  | some (mn, mx) => midV mn mx

/-- Selection bounds record (`SelectionBounds` in the source). -/
structure SelectionBounds where
  min : Vec3
  max : Vec3
  center : Vec3
deriving DecidableEq, Repr

/-- `getSelectionBounds`: like `getSelectionCenter` but returning the whole
min/max/center record, and `none` (the source's `null`) when nothing
contributes bounds. -/
def getSelectionBounds (T : Trig) (els : Elements) (ids : List ElemId)
    (includeDescendants : Bool) : Option SelectionBounds :=
  match (idsForBounds els ids includeDescendants).foldl (boundsStep T els) none with
  | none => none
  | some (mn, mx) => some ⟨mn, mx, midV mn mx⟩

/-- `Partial<SceneElement>` as passed to `updateElement`: every field is
optional; for fields that are themselves optional on `SceneElement` the
outer `Option` is key presence and the inner value is what the key sets. -/
structure ElementUpdate where
  id : Option ElemId := none
  name : Option String := none
  type : Option ElementType := none
  order : Option (Option ℚ) := none
  position : Option Vec3 := none
  rotation : Option Vec3 := none
  scale : Option Vec3 := none
  color : Option String := none
  cornerRadius : Option (Option ℚ) := none
  torusThickness : Option (Option ℚ) := none
  objData : Option (Option String) := none
  parentId : Option (Option ElemId) := none
  children : Option (Option (List ElemId)) := none
deriving DecidableEq, Repr

/-- The JS object spread `{ ...e, ...u }`: fields present on `u` win. -/
def mergeUpdate (e : SceneElement) (u : ElementUpdate) : SceneElement :=
  { id := u.id.getD e.id
    name := u.name.getD e.name
    type := u.type.getD e.type
    order := u.order.getD e.order
    position := u.position.getD e.position
    rotation := u.rotation.getD e.rotation
    scale := u.scale.getD e.scale
    color := u.color.getD e.color
    cornerRadius := u.cornerRadius.getD e.cornerRadius
    torusThickness := u.torusThickness.getD e.torusThickness
    objData := u.objData.getD e.objData
    parentId := u.parentId.getD e.parentId
    children := u.children.getD e.children }

/-- Stand-in for the JS `undefined` that `state.elements[id]` yields when
`id` is absent: spreading it contributes no fields, so the merged object
keeps only the update's fields.  The model represents the missing required
fields by these sentinel values. -/
def undefinedElement : SceneElement :=
  { id := ""
    name := ""
    type := .box
    order := none
    position := ⟨0, 0, 0⟩
    rotation := ⟨0, 0, 0⟩
    scale := ⟨0, 0, 0⟩
    color := "" }

/-- JS `Map.set`: replaces the binding if the key exists, appends otherwise. -/
def upsertPair (m : List (ElemId × ElemId)) (k v : ElemId) : List (ElemId × ElemId) :=
  if m.any (fun p => p.1 == k) then
    m.map (fun p => if p.1 == k then (k, v) else p)
  else
    m ++ [(k, v)]

/-- The `idMap` of `buildClonedElements`: for each source element in order,
binds its id to the next fresh id (the source mints one `uuidv4()` per
element; the fresh ids are supplied here as a list). -/
def mkIdMap (srcIds freshIds : List ElemId) : List (ElemId × ElemId) :=
  (List.zip srcIds freshIds).foldl (fun m p => upsertPair m p.1 p.2) []

/-- JS `Map.get`, `none` for a missing key. -/
def lookupId (m : List (ElemId × ElemId)) (k : ElemId) : Option ElemId :=
  (m.find? (fun p => p.1 == k)).map (·.2)

/-- The per-element body of `buildClonedElements`' map with its running
order counter: fresh id, sequential order, remapped `parentId` (dropped when
the parent is outside the copied set), remapped `children` (ids outside the
copied set kept as is), position offset.  The `getD e.id` branch for the
element's own id is unreachable because the map binds every source id; the
source would mint another fresh uuid there. -/
def cloneList (idMap : List (ElemId × ElemId)) (offset : Vec3) :
    ℚ → List SceneElement → List SceneElement
  | _, [] => []
  | currentOrder, e :: rest =>
    { cloneElement e with
      id := (lookupId idMap e.id).getD e.id
      order := some currentOrder
      parentId := e.parentId.bind (lookupId idMap)
      children := e.children.map (List.map (fun c => (lookupId idMap c).getD c))
      position := addV e.position offset } :: cloneList idMap offset (currentOrder + 1) rest

/-- `buildClonedElements`: remaps ids consistently through a fresh-id map,
offsets positions, assigns sequential orders from `orderStart`, and maps the
buffered selection through the id map (dropping ids with no image and, as
the source's `Boolean` filter does, empty-string ids). -/
def buildClonedElements (sourceElements : List SceneElement) (selection : List ElemId)
    (offset : Vec3) (orderStart : ℚ) (freshIds : List ElemId) :
    List SceneElement × List ElemId :=
  let idMap := mkIdMap (sourceElements.map (·.id)) freshIds
  let clonedElements := cloneList idMap offset orderStart sourceElements
  let newSelection := (selection.filterMap (lookupId idMap)).filter (fun i => i != "")
  (clonedElements, newSelection)

/-- `applyWorldDeltaToElement`: adds a world-space positional delta to an
element, converting it to the parent's local space via the inverse parent
world rotation and the (zero-guarded) inverse parent world scale. -/
def applyWorldDeltaToElement (T : Trig) (els : Elements) (e : SceneElement)
    (delta : Vec3) : SceneElement :=
  match e.parentId with
  | none => { e with position := addV e.position delta }
  | some pid =>
    match getElement els pid with
    | none => { e with position := addV e.position delta }
    | some parent =>
      let parentWorld := getWorldTransform T els parent
      let parentQuaternion := quatFromEuler T parentWorld.rotation
      let ps := parentWorld.scale
      let safeScale : Vec3 :=
        ⟨if ps.x = 0 then 1 else ps.x,
         if ps.y = 0 then 1 else ps.y,
         if ps.z = 0 then 1 else ps.z⟩
      let deltaLocal := applyQuaternion (quatConjugate parentQuaternion) delta
      let deltaLocal2 : Vec3 :=
        ⟨deltaLocal.x / safeScale.x, deltaLocal.y / safeScale.y, deltaLocal.z / safeScale.z⟩
      { e with position := addV e.position deltaLocal2 }

/-- The default transform/color block (`DEFAULT_ELEMENT_PROPS`). -/
def defaultPosition : Vec3 := ⟨0, 0, 0⟩

/-- Default rotation of `DEFAULT_ELEMENT_PROPS`. -/
def defaultRotation : Vec3 := ⟨0, 0, 0⟩

/-- Default scale of `DEFAULT_ELEMENT_PROPS`. -/
def defaultScale : Vec3 := ⟨1, 1, 1⟩

/-- Default color of `DEFAULT_ELEMENT_PROPS`. -/
def defaultColor : String := "#3b82f6"

/-- `addElement`: creates one root element with an auto-generated name,
next `order`, default props (plus kind-specific extras) and the random
position jitter (supplied as `jitter`), pushes history, clears the redo
stack and makes the new element the sole selection. -/
def addElement (s : EditorState) (t : ElementType) (newId : ElemId) (jitter : Vec3) :
    EditorState :=
  let newElement : SceneElement :=
    { id := newId
      name := ELEMENT_LABELS t ++ " " ++ toString (s.elements.length + 1)
      type := t
      order := some (getNextOrder s.elements)
      position := jitter
      rotation := defaultRotation
      scale := defaultScale
      color := defaultColor
      cornerRadius := if t = .box then some 0 else none
      torusThickness := if t = .torus then some (3/10) else none }
  { s with
    history := pushHistory s
    redoHistory := []
    elements := setElement s.elements newId newElement
    selection := [newId] }

/-- `addObjElement`: like `addElement` with kind `mesh`, the given name and
opaque OBJ payload, at the origin. -/
def addObjElement (s : EditorState) (name objData : String) (newId : ElemId) :
    EditorState :=
  let newElement : SceneElement :=
    { id := newId
      name := name
      type := .mesh
      order := some (getNextOrder s.elements)
      position := ⟨0, 0, 0⟩
      rotation := defaultRotation
      scale := defaultScale
      color := defaultColor
      objData := some objData }
  { s with
    history := pushHistory s
    redoHistory := []
    elements := setElement s.elements newId newElement
    selection := [newId] }

/-- `updateElement`: pushes history and writes
`{ ...state.elements[id], ...updates }` under `id`.  When `id` is absent
the spread of `undefined` contributes nothing, so a new entry holding only
the update's fields is created (see `undefinedElement`). -/
def updateElement (s : EditorState) (i : ElemId) (u : ElementUpdate) : EditorState :=
  { s with
    history := pushHistory s
    redoHistory := []
    elements :=
      setElement s.elements i (mergeUpdate ((getElement s.elements i).getD undefinedElement) u) }

/-- `removeElements`: deletes the descendant closure of `ids` and strips the
removed ids from the selection. -/
def removeElements (s : EditorState) (ids : List ElemId) : EditorState :=
  let idsToRemove := collectDescendantIds s.elements ids
  { s with
    history := pushHistory s
    redoHistory := []
    elements := deleteKeys s.elements idsToRemove
    selection := s.selection.filter (fun i => !(idsToRemove.contains i)) }

/-- `setSelection`: replaces the selection; the alignment flag survives only
while more than one element stays selected. -/
def setSelection (s : EditorState) (ids : List ElemId) : EditorState :=
  { s with
    selection := ids
    alignmentMode := if ids.length > 1 then s.alignmentMode else false }

/-- `clearSelection`. -/
def clearSelection (s : EditorState) : EditorState :=
  { s with selection := [], alignmentMode := false }

/-- `setTransformMode`. -/
def setTransformMode (s : EditorState) (m : TransformMode) : EditorState :=
  { s with transformMode := m }

/-- `toggleAlignmentMode`: toggles only while more than one element is
selected, otherwise forces the flag off. -/
def toggleAlignmentMode (s : EditorState) : EditorState :=
  { s with alignmentMode := if s.selection.length > 1 then !s.alignmentMode else false }

/-- `setAlignmentMode`. -/
def setAlignmentMode (s : EditorState) (enabled : Bool) : EditorState :=
  { s with alignmentMode := if s.selection.length > 1 then enabled else false }

/-- Axis argument of `alignSelection`. -/
inductive Axis where
  | x | y | z
deriving DecidableEq, Repr

/-- Anchor argument of `alignSelection`. -/
inductive Anchor where
  | amin | acenter | amax
deriving DecidableEq, Repr

/-- Axis projection of a vector. -/
def axisGet (a : Axis) (v : Vec3) : ℚ :=
  match a with
  | .x => v.x
  | .y => v.y
  | .z => v.z

/-- Anchor selection from a bounds record along an axis. -/
def anchorGet (an : Anchor) (a : Axis) (b : SelectionBounds) : ℚ :=
  match an with
  | .amin => axisGet a b.min
  | .amax => axisGet a b.max
  | .acenter => axisGet a b.center

/-- A delta vector along one axis. -/
def axisDelta (a : Axis) (d : ℚ) : Vec3 :=
  match a with
  | .x => ⟨d, 0, 0⟩
  | .y => ⟨0, d, 0⟩
  | .z => ⟨0, 0, d⟩

/-- `alignSelection`: no-op below two selected ids or when no bounds exist;
otherwise moves each directly selected element so that its own bound at the
anchor matches the combined bound, converting the world delta to the
element's local space.  Element lookups read the running table while bounds
and parent chains are computed against the pre-operation table, as in the
source. -/
def alignSelection (T : Trig) (s : EditorState) (axis : Axis) (anchor : Anchor) :
    EditorState :=
  if s.selection.length < 2 then s else
  match getSelectionBounds T s.elements s.selection true with
  | none => s
  | some bounds =>
    let target := anchorGet anchor axis bounds
    let updatedElements := s.selection.foldl
      (fun acc i =>
        match getElement acc i with
        | none => acc
        | some element =>
          match getSelectionBounds T s.elements [i] true with
          | none => acc
          | some elementBounds =>
            let sourceValue := anchorGet anchor axis elementBounds
            let delta := axisDelta axis (target - sourceValue)
            setElement acc i (applyWorldDeltaToElement T s.elements element delta))
      s.elements
    { s with
      history := pushHistory s
      redoHistory := []
      elements := updatedElements }

/-- `groupSelection`: no-op below two selected ids; otherwise creates a
`group` at the selection's world bounding-box center whose `children` are
the selected ids, reparents each selected element to it rewriting its
stored position to world-minus-center and its stored rotation/scale to the
world values, and selects the group. -/
def groupSelection (T : Trig) (s : EditorState) (groupId : ElemId) : EditorState :=
  if s.selection.length < 2 then s else
  let selectedIds := s.selection
  let center := getSelectionCenter T s.elements selectedIds true
  let group : SceneElement :=
    { id := groupId
      name := ELEMENT_LABELS .group ++ " " ++ toString (s.elements.length + 1)
      type := .group
      order := some (getNextOrder s.elements)
      position := center
      rotation := defaultRotation
      scale := defaultScale
      color := defaultColor
      children := some selectedIds }
  let updatedElements := selectedIds.foldl
    (fun acc i =>
      match getElement acc i with
      | none => acc
      | some element =>
        let w := getWorldTransform T s.elements element
        setElement acc i
          { element with
            parentId := some groupId
            position := subV w.position center
            rotation := w.rotation
            scale := w.scale })
    s.elements
  { s with
    history := pushHistory s
    redoHistory := []
    elements := setElement updatedElements groupId group
    selection := [groupId] }

/-- `ungroupSelection`: each selected `group` with a `children` list is
dissolved — every existing child is reparented to the root with its world
transform written into its stored fields and enters the new selection, and
the container is deleted; every other selected id passes through into the
new selection. -/
def ungroupSelection (T : Trig) (s : EditorState) : EditorState :=
  let r := s.selection.foldl
    (fun (acc : Elements × List ElemId) groupId =>
      match getElement acc.1 groupId with
      | some grp =>
        if grp.type = .group then
          match grp.children with
          | some childIds =>
            let acc2 := childIds.foldl
              (fun (a : Elements × List ElemId) childId =>
                match getElement a.1 childId with
                | some child =>
                  let w := getWorldTransform T s.elements child
                  (setElement a.1 childId
                    { child with
                      parentId := none
                      position := w.position
                      rotation := w.rotation
                      scale := w.scale },
                   a.2 ++ [childId])
                | none => a)
              acc
            (deleteKeys acc2.1 [groupId], acc2.2)
          | none => (acc.1, acc.2 ++ [groupId])
        else (acc.1, acc.2 ++ [groupId])
      | none => (acc.1, acc.2 ++ [groupId]))
    (s.elements, [])
  { s with
    history := pushHistory s
    redoHistory := []
    elements := r.1
    selection := r.2 }

/-- The primitive-shape closed set accepted by `subtractSelection`. -/
def PRIMITIVE_TYPES : List ElementType :=
  [.box, .sphere, .cylinder, .torus, .cone, .pyramid, .heart, .star]

/-- The operand-kind precondition of `subtractSelection`. -/
def canSubtract (s : EditorState) : Bool :=
  s.selection.all (fun i =>
    match getElement s.elements i with
    | some e => PRIMITIVE_TYPES.contains e.type
    | none => false)

/-- `subtractSelection`: requires exactly two selected primitives; sorts the
pair ascending by `order ?? 0`, creates a `subtraction` at the pair's (non
recursive) bounding-box center with `children = [A, B]` in that order, and
reparents both operands to it with positions rebased to the center and
rotation/scale written from their world transforms; the subtraction becomes
the sole selection. -/
def subtractSelection (T : Trig) (s : EditorState) (csgId : ElemId) : EditorState :=
  if s.selection.length ≠ 2 then s else
  if !canSubtract s then s else
  let orderedSelection := stableSortByKey
    (fun i =>
      match getElement s.elements i with
      | some e => e.order.getD 0
      | none => 0)
    s.selection
  let idA := orderedSelection.getD 0 ""
  let idB := orderedSelection.getD 1 ""
  let center := getSelectionCenter T s.elements [idA, idB] false
  let csgElement : SceneElement :=
    { id := csgId
      name := ELEMENT_LABELS .subtraction ++ " " ++ toString (s.elements.length + 1)
      type := .subtraction
      order := some (getNextOrder s.elements)
      position := center
      rotation := defaultRotation
      scale := defaultScale
      color := defaultColor
      children := some [idA, idB] }
  let updatedElements := [idA, idB].foldl
    (fun acc i =>
      match getElement acc i with
      | none => acc
      | some element =>
        let w := getWorldTransform T s.elements element
        setElement acc i
          { element with
            parentId := some csgId
            position := subV w.position center
            rotation := w.rotation
            scale := w.scale })
    s.elements
  { s with
    history := pushHistory s
    redoHistory := []
    elements := setElement updatedElements csgId csgElement
    selection := [csgId] }

/-- `reorderElements`: moves `activeId` in the order-sorted sequence to just
before `overId`'s position (splice semantics: remove first, then insert at
the index found before removal) and renumbers all orders 0..N-1; no-op when
the ids coincide or either is absent from the sorted sequence. -/
def reorderElements (s : EditorState) (activeId overId : ElemId) : EditorState :=
  if activeId = overId then s else
  let ordered := sortElementsByOrder s.elements
  match ordered.findIdx? (fun e => e.id == activeId),
        ordered.findIdx? (fun e => e.id == overId) with
  | some activeIndex, some overIndex =>
    let moved := ordered.getD activeIndex undefinedElement
    let without := ordered.eraseIdx activeIndex
    let updatedOrder := without.take overIndex ++ [moved] ++ without.drop overIndex
    let updatedElements := (updatedOrder.foldl
      (fun (acc : Elements × Nat) e =>
        (setElement acc.1 e.id
          { (getElement acc.1 e.id).getD undefinedElement with order := some (acc.2 : ℚ) },
         acc.2 + 1))
      (s.elements, 0)).1
    { s with
      history := pushHistory s
      redoHistory := []
      elements := updatedElements }
  | _, _ => s

/-- The clipboard buffer `copySelection` stores: the descendant closure of
the selection, in table order sorted by `order`, deep copied. -/
def copyBuffer (s : EditorState) : List SceneElement :=
  let idsToCopy := collectDescendantIds s.elements s.selection
  ((sortElementsByOrder s.elements).filter (fun e => idsToCopy.contains e.id)).map cloneElement

/-- `copySelection`: no-op on an empty selection; otherwise snapshots the
sorted descendant closure and the selection into the clipboard.  Does not
push history and touches nothing else. -/
def copySelection (s : EditorState) : EditorState :=
  if s.selection.length = 0 then s else
  { s with clipboard := some ⟨copyBuffer s, s.selection⟩ }

/-- The fixed paste/duplicate position offset. -/
def NUDGE : Vec3 := ⟨1/2, 1/2, 1/2⟩

/-- `pasteClipboard`: no-op without a nonempty clipboard; otherwise clones
the buffered elements with fresh ids (supplied as `freshIds`), the fixed
nudge offset and sequential orders starting after the current maximum,
merges them into the table and selects the remapped buffered selection. -/
def pasteClipboard (s : EditorState) (freshIds : List ElemId) : EditorState :=
  match s.clipboard with
  | none => s
  | some clipboard =>
    if clipboard.elements.length = 0 then s else
    let orderStart := getNextOrder s.elements
    let r := buildClonedElements clipboard.elements clipboard.selection NUDGE orderStart freshIds
    let updatedElements := r.1.foldl (fun acc e => setElement acc e.id e) s.elements
    { s with
      history := pushHistory s
      redoHistory := []
      elements := updatedElements
      selection := r.2 }

/-- `duplicateSelection`: like paste but sourced directly from the current
selection's descendant closure instead of the clipboard. -/
def duplicateSelection (s : EditorState) (freshIds : List ElemId) : EditorState :=
  if s.selection.length = 0 then s else
  let idsToCopy := collectDescendantIds s.elements s.selection
  let elementsToCopy := (sortElementsByOrder s.elements).filter (fun e => idsToCopy.contains e.id)
  let orderStart := getNextOrder s.elements
  let r := buildClonedElements elementsToCopy s.selection NUDGE orderStart freshIds
  let updatedElements := r.1.foldl (fun acc e => setElement acc e.id e) s.elements
  { s with
    history := pushHistory s
    redoHistory := []
    elements := updatedElements
    selection := r.2 }

/-- `loadScene`: full table replace with order normalization; resets
selection, alignment flag, both history stacks and the clipboard. -/
def loadScene (s : EditorState) (els : Elements) : EditorState :=
  { s with
    elements := ensureElementOrder els
    selection := []
    alignmentMode := false
    history := []
    redoHistory := []
    clipboard := none }

/-- `resetScene`. -/
def resetScene (s : EditorState) : EditorState :=
  { s with
    elements := []
    selection := []
    alignmentMode := false
    history := []
    redoHistory := []
    clipboard := none }

/-- `undo`: no-op on an empty undo stack; otherwise pops the top snapshot
into the current elements/selection and pushes a deep copy of the pre-undo
state onto the (bounded) redo stack. -/
def undo (s : EditorState) : EditorState :=
  match s.history.getLast? with
  | none => s
  | some previous =>
    { s with
      elements := previous.elements
      selection := previous.selection
      history := s.history.dropLast
      redoHistory := pushCap s.redoHistory (buildSnapshot s) }

/-- `redo`: no-op on an empty redo stack; otherwise pops the top redo
snapshot into the current elements/selection and pushes the pre-redo state
onto the undo stack via the normal `pushHistory` path. -/
def redo (s : EditorState) : EditorState :=
  match s.redoHistory.getLast? with
  | none => s
  | some next =>
    { s with
      elements := next.elements
      selection := next.selection
      history := pushHistory s
      redoHistory := s.redoHistory.dropLast }

/-- The store's operations as an inductive alphabet.  Nondeterministic
inputs of the source (`uuidv4()` results, the random jitter of
`addElement`) are carried as constructor arguments. -/
inductive Op where
  | addElement (t : ElementType) (newId : ElemId) (jitter : Vec3)
  | addObjElement (name objData : String) (newId : ElemId)
  | updateElement (i : ElemId) (u : ElementUpdate)
  | removeElements (ids : List ElemId)
  | setSelection (ids : List ElemId)
  | clearSelection
  | setTransformMode (m : TransformMode)
  | toggleAlignmentMode
  | setAlignmentMode (enabled : Bool)
  | alignSelection (axis : Axis) (anchor : Anchor)
  | groupSelection (newId : ElemId)
  | ungroupSelection
  | subtractSelection (newId : ElemId)
  | reorderElements (activeId overId : ElemId)
  | copySelection
  | pasteClipboard (freshIds : List ElemId)
  | duplicateSelection (freshIds : List ElemId)
  | loadScene (els : Elements)
  | resetScene
  | undo
  | redo
deriving DecidableEq, Repr

/-- Dispatch of one operation on the store state. -/
def applyOp (T : Trig) (s : EditorState) : Op → EditorState
  | .addElement t newId jitter => addElement s t newId jitter
  | .addObjElement name objData newId => addObjElement s name objData newId
  | .updateElement i u => updateElement s i u
  | .removeElements ids => removeElements s ids
  | .setSelection ids => setSelection s ids
  | .clearSelection => clearSelection s
  | .setTransformMode m => setTransformMode s m
  | .toggleAlignmentMode => toggleAlignmentMode s
  | .setAlignmentMode enabled => setAlignmentMode s enabled
  | .alignSelection axis anchor => alignSelection T s axis anchor
  | .groupSelection newId => groupSelection T s newId
  | .ungroupSelection => ungroupSelection T s
  | .subtractSelection newId => subtractSelection T s newId
  | .reorderElements activeId overId => reorderElements s activeId overId
  | .copySelection => copySelection s
  | .pasteClipboard freshIds => pasteClipboard s freshIds
  | .duplicateSelection freshIds => duplicateSelection s freshIds
  | .loadScene els => loadScene s els
  | .resetScene => resetScene s
  | .undo => undo s
  | .redo => redo s

/-- Sequential application of a list of operations. -/
def applyOps (T : Trig) (s : EditorState) (ops : List Op) : EditorState :=
  ops.foldl (applyOp T) s

/-- N repeated calls to `undo`. -/
def undoIter : Nat → EditorState → EditorState
  | 0, s => s
  | n + 1, s => undoIter n (undo s)

/-! ### Basic lemmas about the building blocks -/

theorem cloneElement_eq (e : SceneElement) : cloneElement e = e := rfl

theorem cloneElements_eq (els : Elements) : cloneElements els = els := by
  unfold cloneElements
  induction els with
  | nil => rfl
  | cons p rest ih =>
    simp only [List.map_cons, ih]
    simp [cloneElement_eq]

theorem beq_false_of_ne {a b : ElemId} (h : a ≠ b) : (a == b) = false :=
  beq_eq_false_iff_ne.mpr h

theorem getElement_map_replace_ne (els : Elements) (i j : ElemId) (v : SceneElement)
    (hj : j ≠ i) :
    getElement (els.map (fun p => if p.1 == i then (i, v) else p)) j = getElement els j := by
  induction els with
  | nil => rfl
  | cons p rest ih =>
    by_cases hp : p.1 = i
    · have hb : (p.1 == i) = true := by simp [hp]
      have h1 : (i == j) = false := beq_false_of_ne (Ne.symm hj)
      have h2 : (p.1 == j) = false := by
        rw [hp]
        exact beq_false_of_ne (Ne.symm hj)
      simp only [List.map_cons, hb, if_true, getElement, List.find?, h1, h2] at ih ⊢
      exact ih
    · have hb : (p.1 == i) = false := beq_false_of_ne hp
      by_cases hpj : p.1 = j
      · have h2 : (p.1 == j) = true := by simp [hpj]
        simp only [List.map_cons, hb, Bool.false_eq_true, if_false, getElement, List.find?, h2]
      · have h2 : (p.1 == j) = false := beq_false_of_ne hpj
        simp only [List.map_cons, hb, Bool.false_eq_true, if_false, getElement, List.find?, h2]
          at ih ⊢
        exact ih

theorem getElement_map_replace_self (els : Elements) (i : ElemId) (v : SceneElement) :
    getElement (els.map (fun p => if p.1 == i then (i, v) else p)) i =
      (getElement els i).map (fun _ => v) := by
  induction els with
  | nil => rfl
  | cons p rest ih =>
    by_cases hp : p.1 = i
    · have hb : (p.1 == i) = true := by simp [hp]
      simp [List.map_cons, hb, getElement, List.find?]
    · have hb : (p.1 == i) = false := beq_false_of_ne hp
      simp only [List.map_cons, hb, Bool.false_eq_true, if_false, getElement, List.find?] at ih ⊢
      exact ih

theorem any_key_eq_isSome (els : Elements) (i : ElemId) :
    els.any (fun p => p.1 == i) = (getElement els i).isSome := by
  induction els with
  | nil => rfl
  | cons p rest ih =>
    by_cases hp : p.1 = i
    · have hb : (p.1 == i) = true := by simp [hp]
      simp [getElement, List.find?, hb]
    · have hb : (p.1 == i) = false := beq_false_of_ne hp
      simp only [List.any_cons, hb, Bool.false_or, getElement, List.find?] at ih ⊢
      exact ih

theorem getElement_append_single (els : Elements) (i j : ElemId) (v : SceneElement)
    (hmem : els.any (fun p => p.1 == i) = false) :
    getElement (els ++ [(i, v)]) j = if j = i then some v else getElement els j := by
  induction els with
  | nil =>
    by_cases hj : j = i
    · simp [getElement, List.find?, hj]
    · have h1 : (i == j) = false := beq_false_of_ne (Ne.symm hj)
      simp [getElement, List.find?, h1, hj]
  | cons p rest ih =>
    rw [List.any_cons, Bool.or_eq_false_iff] at hmem
    obtain ⟨hpb, hrest⟩ := hmem
    by_cases hpj : p.1 = j
    · have h2 : (p.1 == j) = true := by simp [hpj]
      have hj : ¬ (j = i) := by
        intro h
        rw [hpj, h] at hpb
        simp at hpb
      simp [getElement, List.find?, List.cons_append, h2, if_neg hj]
    · have h2 : (p.1 == j) = false := beq_false_of_ne hpj
      simp only [List.cons_append, getElement, List.find?, h2, List.append_eq] at ih ⊢
      rw [ih hrest]

/-- A JS object write `{...obj, [i]: v}` read back: the written key holds
the new value and every other key is untouched. -/
theorem getElement_setElement (els : Elements) (i j : ElemId) (v : SceneElement) :
    getElement (setElement els i v) j = if j = i then some v else getElement els j := by
  unfold setElement
  by_cases hmem : els.any (fun p => p.1 == i) = true
  · rw [if_pos hmem]
    by_cases hj : j = i
    · subst hj
      rw [if_pos rfl, getElement_map_replace_self]
      rw [any_key_eq_isSome] at hmem
      obtain ⟨e, he⟩ := Option.isSome_iff_exists.mp hmem
      rw [he]
      rfl
    · rw [if_neg hj]
      exact getElement_map_replace_ne els i j v hj
  · rw [if_neg hmem]
    have hmem2 : els.any (fun p => p.1 == i) = false := by
      cases h : els.any (fun p => p.1 == i) with
      | true => exact absurd h hmem
      | false => rfl
    exact getElement_append_single els i j v hmem2

theorem getElement_setElement_self (els : Elements) (i : ElemId) (v : SceneElement) :
    getElement (setElement els i v) i = some v := by
  simp [getElement_setElement]

theorem getElement_setElement_ne (els : Elements) (i j : ElemId) (v : SceneElement)
    (hj : j ≠ i) :
    getElement (setElement els i v) j = getElement els j := by
  simp [getElement_setElement, hj]

theorem buildSnapshot_eq (s : EditorState) :
    buildSnapshot s = ⟨s.elements, s.selection⟩ := by
  simp [buildSnapshot, cloneElements_eq]

theorem pushHistory_eq (s : EditorState) :
    pushHistory s = pushCap s.history ⟨s.elements, s.selection⟩ := by
  simp [pushHistory, cloneElements_eq]

theorem pushCap_eq (h : List Snapshot) (x : Snapshot) :
    pushCap h x = h.drop (h.length + 1 - MAX_HISTORY) ++ [x] := by
  have hle : h.length + 1 - MAX_HISTORY ≤ h.length := by
    simp only [MAX_HISTORY]; omega
  simp only [pushCap, List.length_append, List.length_cons, List.length_nil]
  rw [List.drop_append_of_le_length hle]

theorem undo_empty (s : EditorState) (h : s.history = []) : undo s = s := by
  unfold undo
  rw [h]
  rfl

theorem undo_concat (s : EditorState) (h : List Snapshot) (x : Snapshot)
    (hh : s.history = h ++ [x]) :
    undo s =
      { s with
        elements := x.elements
        selection := x.selection
        history := h
        redoHistory := pushCap s.redoHistory (buildSnapshot s) } := by
  unfold undo
  simp only [hh, List.getLast?_concat, List.dropLast_concat]

theorem redo_empty (s : EditorState) (h : s.redoHistory = []) : redo s = s := by
  unfold redo
  rw [h]
  rfl

theorem redo_concat (s : EditorState) (r : List Snapshot) (x : Snapshot)
    (hh : s.redoHistory = r ++ [x]) :
    redo s =
      { s with
        elements := x.elements
        selection := x.selection
        history := pushHistory s
        redoHistory := r } := by
  unfold redo
  simp only [hh, List.getLast?_concat, List.dropLast_concat]

/-! ### Claim C2 -/

/-- C2 (amended): for every state with a nonempty undo stack, `undo` then
`redo` restores the elements table and the selection to their pre-undo
values; when the undo stack is empty, `undo` is a no-op, and both calls
leave the state unchanged provided the redo stack is also empty (a nonempty
redo stack makes the subsequent `redo` pop it — see the counterexample). -/
theorem undo_redo_roundtrip (s : EditorState) :
    (s.history ≠ [] →
      (redo (undo s)).elements = s.elements ∧
      (redo (undo s)).selection = s.selection) ∧
    (s.history = [] → s.redoHistory = [] → undo s = s ∧ redo (undo s) = s) := by
  constructor
  · intro hne
    rcases List.eq_nil_or_concat s.history with h | ⟨h, x, hh⟩
    · exact absurd h hne
    rw [List.concat_eq_append] at hh
    have hu := undo_concat s h x hh
    have hu2 : (undo s).redoHistory =
        s.redoHistory.drop (s.redoHistory.length + 1 - MAX_HISTORY) ++ [buildSnapshot s] := by
      rw [hu]
      exact pushCap_eq _ _
    have hredo := redo_concat (undo s) _ (buildSnapshot s) hu2
    rw [hredo]
    constructor <;> simp [buildSnapshot_eq]
  · intro h1 h2
    have hu : undo s = s := undo_empty s h1
    rw [hu]
    exact ⟨rfl, by rw [redo_empty s h2]⟩

/-- A concrete state with one pushed history entry, used to witness C2. -/
def c2AddState : EditorState := applyOp trigFlat initState (.addElement .box "a" (v3 0 0 0))

theorem undo_redo_roundtrip_witness :
    (redo (undo c2AddState)).elements = c2AddState.elements :=
  ((undo_redo_roundtrip c2AddState).1 (by decide)).1

/-- A reachable state whose undo stack is empty but whose redo stack is
not, obtained by one add followed by one undo. -/
def c2EmptyUndoState : EditorState := undo c2AddState

/-- C2 counterexample: at `c2EmptyUndoState` the undo stack is empty, yet
`undo` followed by `redo` changes the elements table, because `redo` pops
the nonempty redo stack. -/
theorem undo_redo_empty_counterexample :
    c2EmptyUndoState.history = [] ∧
    (redo (undo c2EmptyUndoState)).elements ≠ c2EmptyUndoState.elements := by decide

/-! ### Claim C3 -/

/-- The update of the C3 failing input. -/
def c3Update : ElementUpdate := { name := some "n" }

/-- C3: `updateElement` on an id absent from the table is not a no-op: the
JS spread of `undefined` creates a fresh entry that carries only the
update's fields (modelled by `undefinedElement` defaults). -/
theorem updateElement_absent_creates_entry :
    getElement initState.elements "x" = none ∧
    getElement (updateElement initState "x" c3Update).elements "x" =
      some { undefinedElement with name := "n" } := by decide

/-! ### Claim C1 -/

/-- The ten mutating operations listed by claim C1. -/
def isMutOp : Op → Bool
  | .addElement .. => true
  | .updateElement .. => true
  | .removeElements _ => true
  | .groupSelection _ => true
  | .ungroupSelection => true
  | .subtractSelection _ => true
  | .reorderElements .. => true
  | .pasteClipboard _ => true
  | .duplicateSelection _ => true
  | .alignSelection .. => true
  | _ => false

/-- Whether an operation takes its full path in state `s` and therefore
pushes a history snapshot, as opposed to returning early on a failed
precondition (too small a selection, non-primitive subtract operands,
missing reorder ids, empty clipboard, bounds-less alignment). -/
def opPushes (T : Trig) (s : EditorState) : Op → Bool
  | .groupSelection _ => decide (2 ≤ s.selection.length)
  | .subtractSelection _ => decide (s.selection.length = 2) && canSubtract s
  | .reorderElements a b =>
    !(decide (a = b)) &&
      ((sortElementsByOrder s.elements).findIdx? (fun e => e.id == a)).isSome &&
      ((sortElementsByOrder s.elements).findIdx? (fun e => e.id == b)).isSome
  | .pasteClipboard _ =>
    match s.clipboard with
    | none => false
    | some clipboard => decide (clipboard.elements.length ≠ 0)
  | .duplicateSelection _ => decide (s.selection.length ≠ 0)
  | .alignSelection _ _ =>
    decide (2 ≤ s.selection.length) && (getSelectionBounds T s.elements s.selection true).isSome
  | _ => true

/-- Every operation of the sequence pushes in the state it actually runs in. -/
def allPush (T : Trig) : EditorState → List Op → Bool
  | _, [] => true
  | s, op :: rest => opPushes T s op && allPush T (applyOp T s op) rest

/-- Every C1 operation that passes its precondition produces a state whose
history is the pushed snapshot stack, whose redo stack is cleared, and whose
transform mode, alignment flag and clipboard are untouched. -/
theorem applyOp_pushes_shape (T : Trig) (s : EditorState) (op : Op)
    (hmut : isMutOp op = true) (hpush : opPushes T s op = true) :
    ∃ E S, applyOp T s op =
      { elements := E
        selection := S
        transformMode := s.transformMode
        alignmentMode := s.alignmentMode
        history := pushHistory s
        redoHistory := []
        clipboard := s.clipboard } := by
  cases op with
  | addElement t newId jitter => exact ⟨_, _, rfl⟩
  | updateElement i u => exact ⟨_, _, rfl⟩
  | removeElements ids => exact ⟨_, _, rfl⟩
  | ungroupSelection => exact ⟨_, _, rfl⟩
  | groupSelection newId =>
    simp only [opPushes, decide_eq_true_eq] at hpush
    exact ⟨_, _, by
      show groupSelection T s newId = _
      rw [groupSelection, if_neg (by omega)]⟩
  | subtractSelection newId =>
    simp only [opPushes, Bool.and_eq_true, decide_eq_true_eq] at hpush
    exact ⟨_, _, by
      show subtractSelection T s newId = _
      rw [subtractSelection, if_neg (by omega), if_neg (by simp [hpush.2])]⟩
  | alignSelection axis anchor =>
    simp only [opPushes, Bool.and_eq_true, decide_eq_true_eq] at hpush
    have h1 := hpush.1
    obtain ⟨b, hb⟩ := Option.isSome_iff_exists.mp hpush.2
    exact ⟨_, _, by
      show alignSelection T s axis anchor = _
      rw [alignSelection, if_neg (by omega), hb]⟩
  | reorderElements a b =>
    simp only [opPushes, Bool.and_eq_true, Bool.not_eq_true', decide_eq_false_iff_not] at hpush
    obtain ⟨⟨hne, hA⟩, hB⟩ := hpush
    obtain ⟨ai, hai⟩ := Option.isSome_iff_exists.mp hA
    obtain ⟨oi, hoi⟩ := Option.isSome_iff_exists.mp hB
    exact ⟨_, _, by
      show reorderElements s a b = _
      rw [reorderElements, if_neg hne]
      simp only [hai, hoi]
      rfl⟩
  | pasteClipboard freshIds =>
    cases hc : s.clipboard with
    | none =>
      rw [opPushes, hc] at hpush
      simp at hpush
    | some clipboard =>
      rw [opPushes, hc, decide_eq_true_eq] at hpush
      exact ⟨_, _, by
        show pasteClipboard s freshIds = _
        rw [pasteClipboard]
        simp only [hc]
        rw [if_neg hpush]⟩
  | duplicateSelection freshIds =>
    simp only [opPushes, decide_eq_true_eq] at hpush
    exact ⟨_, _, by
      show duplicateSelection s freshIds = _
      rw [duplicateSelection, if_neg hpush]⟩
  | addObjElement name objData newId => simp [isMutOp] at hmut
  | setSelection ids => simp [isMutOp] at hmut
  | clearSelection => simp [isMutOp] at hmut
  | setTransformMode m => simp [isMutOp] at hmut
  | toggleAlignmentMode => simp [isMutOp] at hmut
  | setAlignmentMode enabled => simp [isMutOp] at hmut
  | copySelection => simp [isMutOp] at hmut
  | loadScene els => simp [isMutOp] at hmut
  | resetScene => simp [isMutOp] at hmut
  | undo => simp [isMutOp] at hmut
  | redo => simp [isMutOp] at hmut

theorem undoIter_succ (n : Nat) (s : EditorState) :
    undoIter (n + 1) s = undo (undoIter n s) := by
  induction n generalizing s with
  | zero => rfl
  | succ n ih =>
    show undoIter (n + 1) (undo s) = undo (undoIter (n + 1) s)
    rw [ih (undo s)]
    rfl

/-- The round-trip workhorse: a nonempty sequence of C1 operations, each
passing its precondition, followed by as many undos restores elements and
selection, and leaves the undo stack equal to the original minus the oldest
entries that the 50-capacity eviction discarded. -/
theorem undo_roundtrip_aux (T : Trig) (ops : List Op) :
    ∀ s : EditorState, ops ≠ [] →
      (∀ op ∈ ops, isMutOp op = true) → allPush T s ops = true →
      ops.length ≤ MAX_HISTORY →
      (undoIter ops.length (applyOps T s ops)).elements = s.elements ∧
      (undoIter ops.length (applyOps T s ops)).selection = s.selection ∧
      (undoIter ops.length (applyOps T s ops)).history =
        s.history.drop (s.history.length + ops.length - MAX_HISTORY) := by
  induction ops with
  | nil => intro s h; exact absurd rfl h
  | cons op rest ih =>
    intro s _ hmut hpush hlen
    have hMH : MAX_HISTORY = 50 := rfl
    have hmo : isMutOp op = true := hmut op (by simp)
    rw [allPush, Bool.and_eq_true] at hpush
    obtain ⟨E, S, hshape⟩ := applyOp_pushes_shape T s op hmo hpush.1
    have happ : applyOps T s (op :: rest) = applyOps T (applyOp T s op) rest := rfl
    have hist1 : (applyOp T s op).history =
        s.history.drop (s.history.length + 1 - MAX_HISTORY) ++ [⟨s.elements, s.selection⟩] := by
      rw [hshape]
      show pushHistory s = _
      rw [pushHistory_eq, pushCap_eq]
    cases rest with
    | nil =>
      have h2 : undoIter (([op] : List Op).length) (applyOps T s [op]) =
          undo (applyOp T s op) := rfl
      rw [h2, undo_concat (applyOp T s op) _ _ hist1]
      exact ⟨rfl, rfl, rfl⟩
    | cons op2 rest2 =>
      set rest := op2 :: rest2 with hrest
      have ihr := ih (applyOp T s op) (by simp [hrest])
        (fun o ho => hmut o (List.mem_cons_of_mem _ ho)) hpush.2
        (by simp only [List.length_cons] at hlen ⊢; omega)
      obtain ⟨ih1, ih2, ih3⟩ := ihr
      have hlen1 : (applyOp T s op).history.length =
          s.history.length + 1 - (s.history.length + 1 - MAX_HISTORY) := by
        rw [hist1]
        simp [List.length_append, List.length_drop]
        omega
      -- the history of the state after undoing `rest` still ends in our snapshot
      set K := (applyOp T s op).history.length + rest.length - MAX_HISTORY with hK
      have hk2 : K ≤ (List.drop (s.history.length + 1 - MAX_HISTORY) s.history).length := by
        rw [hK, List.length_drop, hlen1]
        simp only [List.length_cons] at hlen
        omega
      have hu3 : (undoIter rest.length (applyOps T (applyOp T s op) rest)).history =
          s.history.drop ((s.history.length + 1 - MAX_HISTORY) + K) ++
            [⟨s.elements, s.selection⟩] := by
        rw [ih3, hist1]
        rw [List.drop_append_of_le_length hk2]
        rw [List.drop_drop, Nat.add_comm]
      have hfin := undo_concat _ _ _ hu3
      have hstep : undoIter (op :: rest).length (applyOps T s (op :: rest)) =
          undo (undoIter rest.length (applyOps T (applyOp T s op) rest)) := by
        rw [happ, List.length_cons, undoIter_succ]
      rw [hstep, hfin]
      refine ⟨rfl, rfl, ?_⟩
      show s.history.drop _ = s.history.drop _
      congr 1
      rw [hK, hlen1]
      simp only [List.length_cons] at hlen ⊢
      omega

/-- C1 (amended): for every starting state and every sequence of at most 50
of the listed mutating operations in which each call passes its
precondition (and therefore pushes a history snapshot), that many
subsequent calls to `undo` restore the elements table and the selection
exactly.  Operations whose precondition fails push nothing, and sequences
longer than the history capacity evict their oldest snapshots, so both
conditions are necessary (see the counterexample). -/
theorem undo_roundtrip_amended (T : Trig) (ops : List Op) (s : EditorState)
    (hmut : ∀ op ∈ ops, isMutOp op = true)
    (hpush : allPush T s ops = true)
    (hlen : ops.length ≤ MAX_HISTORY) :
    (undoIter ops.length (applyOps T s ops)).elements = s.elements ∧
    (undoIter ops.length (applyOps T s ops)).selection = s.selection := by
  cases ops with
  | nil => exact ⟨rfl, rfl⟩
  | cons op rest =>
    have h := undo_roundtrip_aux T (op :: rest) s (by simp) hmut hpush hlen
    exact ⟨h.1, h.2.1⟩

/-- The update used by the C1 scenario states. -/
def c1Update : ElementUpdate := { position := some (v3 1 1 1) }

/-- A reachable state with a nonempty history and an empty selection. -/
def c1Start : EditorState :=
  applyOps trigFlat initState
    [.addElement .box "a" (v3 0 0 0), .updateElement "a" c1Update, .setSelection []]

/-- C1 counterexample: one mutating operation (`subtractSelection`, whose
precondition fails on the empty selection, so it pushes no snapshot)
followed by one `undo` does not restore the pre-sequence state — the undo
pops the snapshot of an older operation instead. -/
theorem undo_roundtrip_counterexample :
    ¬ ((undoIter 1 (applyOps trigFlat c1Start [.subtractSelection "x"])).elements =
         c1Start.elements ∧
       (undoIter 1 (applyOps trigFlat c1Start [.subtractSelection "x"])).selection =
         c1Start.selection) :=
  fun h => absurd h.2 (by decide)

theorem undo_roundtrip_amended_witness :
    (undoIter 2 (applyOps trigFlat initState
        [.addElement .box "a" (v3 0 0 0), .updateElement "a" c1Update])).elements =
      initState.elements :=
  (undo_roundtrip_amended trigFlat
    [.addElement .box "a" (v3 0 0 0), .updateElement "a" c1Update] initState
    (by decide) (by decide) (by decide)).1

/-! ### Claim C9 -/

/-- The alignment-flag invariant of claim C9: below two selected ids the
flag is off. -/
def AlignInv (s : EditorState) : Prop :=
  s.selection.length < 2 → s.alignmentMode = false

/-- The operations that keep the alignment flag consistent on their own:
they either touch neither selection nor flag, or they re-derive the flag
from the new selection. -/
def isGuardedOp : Op → Bool
  | .updateElement .. => true
  | .setSelection _ => true
  | .clearSelection => true
  | .setTransformMode _ => true
  | .toggleAlignmentMode => true
  | .setAlignmentMode _ => true
  | .alignSelection .. => true
  | .reorderElements .. => true
  | .copySelection => true
  | .loadScene _ => true
  | .resetScene => true
  | _ => false

theorem alignInv_preserved (T : Trig) (s : EditorState) (op : Op)
    (hg : isGuardedOp op = true) (hInv : AlignInv s) : AlignInv (applyOp T s op) := by
  cases op with
  | updateElement i u => exact hInv
  | setSelection ids =>
    intro h
    show (if ids.length > 1 then s.alignmentMode else false) = false
    have h2 : ¬ (ids.length > 1) := by
      simp only [applyOp, setSelection] at h
      omega
    rw [if_neg h2]
  | clearSelection => intro _; rfl
  | setTransformMode m => exact hInv
  | toggleAlignmentMode =>
    intro h
    show (if s.selection.length > 1 then !s.alignmentMode else false) = false
    have h2 : ¬ (s.selection.length > 1) := by
      simp only [applyOp, toggleAlignmentMode] at h
      omega
    rw [if_neg h2]
  | setAlignmentMode b =>
    intro h
    show (if s.selection.length > 1 then b else false) = false
    have h2 : ¬ (s.selection.length > 1) := by
      simp only [applyOp, setAlignmentMode] at h
      omega
    rw [if_neg h2]
  | alignSelection axis anchor =>
    show AlignInv (alignSelection T s axis anchor)
    rw [alignSelection]
    by_cases h2 : s.selection.length < 2
    · rw [if_pos h2]
      exact hInv
    · rw [if_neg h2]
      cases hb : getSelectionBounds T s.elements s.selection true with
      | none => exact hInv
      | some b => exact hInv
  | reorderElements a b =>
    show AlignInv (reorderElements s a b)
    unfold reorderElements
    dsimp only
    split
    · exact hInv
    · split
      · exact hInv
      · exact hInv
  | copySelection =>
    show AlignInv (copySelection s)
    rw [copySelection]
    by_cases h0 : s.selection.length = 0
    · rw [if_pos h0]
      exact hInv
    · rw [if_neg h0]
      exact hInv
  | loadScene els => intro _; rfl
  | resetScene => intro _; rfl
  | addElement t newId jitter => simp [isGuardedOp] at hg
  | addObjElement name objData newId => simp [isGuardedOp] at hg
  | removeElements ids => simp [isGuardedOp] at hg
  | groupSelection newId => simp [isGuardedOp] at hg
  | ungroupSelection => simp [isGuardedOp] at hg
  | subtractSelection newId => simp [isGuardedOp] at hg
  | pasteClipboard freshIds => simp [isGuardedOp] at hg
  | duplicateSelection freshIds => simp [isGuardedOp] at hg
  | undo => simp [isGuardedOp] at hg
  | redo => simp [isGuardedOp] at hg

theorem alignInv_preserved_ops (T : Trig) (ops : List Op) :
    ∀ s : EditorState, AlignInv s → (∀ op ∈ ops, isGuardedOp op = true) →
      AlignInv (applyOps T s ops) := by
  induction ops with
  | nil => exact fun s h _ => h
  | cons op rest ih =>
    intro s hInv hops
    exact ih (applyOp T s op)
      (alignInv_preserved T s op (hops op (by simp)) hInv)
      (fun o ho => hops o (List.mem_cons_of_mem _ ho))

/-- C9 (amended): the invariant "selection below 2 forces the alignment
flag off" holds in every state reachable from the initial state by the
operations that guard the flag themselves (updateElement, setSelection,
clearSelection, setTransformMode, toggleAlignmentMode, setAlignmentMode,
alignSelection, reorderElements, copySelection, loadScene, resetScene).
The remaining operations (addElement, addObjElement, removeElements,
groupSelection, ungroupSelection, subtractSelection, pasteClipboard,
duplicateSelection, undo, redo) replace the selection without re-checking
the flag and can break the invariant — see the counterexample. -/
theorem alignment_flag_invariant_amended (T : Trig) (ops : List Op)
    (hops : ∀ op ∈ ops, isGuardedOp op = true)
    (hsel : (applyOps T initState ops).selection.length < 2) :
    (applyOps T initState ops).alignmentMode = false :=
  alignInv_preserved_ops T ops initState (fun _ => rfl) hops hsel

/-- The operation sequence of the C9 counterexample, starting from the
initial state: add two boxes, select both, switch alignment mode on, then
remove one of the two selected elements. -/
def c9Ops : List Op :=
  [.addElement .box "a" (v3 0 0 0), .addElement .box "b" (v3 0 0 0),
   .setSelection ["a", "b"], .toggleAlignmentMode, .removeElements ["b"]]

/-- C9 counterexample: after `c9Ops` the selection has a single id but the
alignment flag is still on, because `removeElements` shrinks the selection
without touching the flag. -/
theorem alignment_flag_counterexample :
    (applyOps trigFlat initState c9Ops).selection.length < 2 ∧
    (applyOps trigFlat initState c9Ops).alignmentMode = true := by decide

theorem alignment_flag_invariant_amended_witness :
    (applyOps trigFlat initState
      [.setSelection ["a", "b"], .toggleAlignmentMode, .setSelection []]).alignmentMode =
      false :=
  alignment_flag_invariant_amended trigFlat
    [.setSelection ["a", "b"], .toggleAlignmentMode, .setSelection []]
    (by decide) (by decide)

/-! ### Claim C10 -/

/-- The operations that write the clipboard field. -/
def writesClipboard : Op → Bool
  | .copySelection => true
  | .loadScene _ => true
  | .resetScene => true
  | _ => false

theorem clipboard_preserved (T : Trig) (s : EditorState) (op : Op)
    (h : writesClipboard op = false) : (applyOp T s op).clipboard = s.clipboard := by
  cases op with
  | addElement t newId jitter => rfl
  | addObjElement name objData newId => rfl
  | updateElement i u => rfl
  | removeElements ids => rfl
  | setSelection ids => rfl
  | clearSelection => rfl
  | setTransformMode m => rfl
  | toggleAlignmentMode => rfl
  | setAlignmentMode b => rfl
  | alignSelection axis anchor =>
    show (alignSelection T s axis anchor).clipboard = s.clipboard
    rw [alignSelection]
    by_cases h2 : s.selection.length < 2
    · rw [if_pos h2]
    · rw [if_neg h2]
      cases hb : getSelectionBounds T s.elements s.selection true with
      | none => rfl
      | some b => rfl
  | groupSelection newId =>
    show (groupSelection T s newId).clipboard = s.clipboard
    rw [groupSelection]
    by_cases h2 : s.selection.length < 2
    · rw [if_pos h2]
    · rw [if_neg h2]
  | ungroupSelection => rfl
  | subtractSelection newId =>
    show (subtractSelection T s newId).clipboard = s.clipboard
    rw [subtractSelection]
    by_cases h2 : s.selection.length ≠ 2
    · rw [if_pos h2]
    · rw [if_neg h2]
      by_cases h3 : (!canSubtract s) = true
      · rw [if_pos h3]
      · rw [if_neg h3]
  | reorderElements a b =>
    show (reorderElements s a b).clipboard = s.clipboard
    unfold reorderElements
    dsimp only
    split
    · rfl
    · split
      · rfl
      · rfl
  | pasteClipboard freshIds =>
    show (pasteClipboard s freshIds).clipboard = s.clipboard
    rw [pasteClipboard]
    cases hc : s.clipboard with
    | none => exact hc
    | some clipboard =>
      dsimp only
      by_cases h2 : clipboard.elements.length = 0
      · rw [if_pos h2]
        exact hc
      · rw [if_neg h2]
  | duplicateSelection freshIds =>
    show (duplicateSelection s freshIds).clipboard = s.clipboard
    rw [duplicateSelection]
    by_cases h2 : s.selection.length = 0
    · rw [if_pos h2]
    · rw [if_neg h2]
  | copySelection => simp [writesClipboard] at h
  | loadScene els => simp [writesClipboard] at h
  | resetScene => simp [writesClipboard] at h
  | undo =>
    show (undo s).clipboard = s.clipboard
    rw [undo]
    cases hh : s.history.getLast? with
    | none => rfl
    | some previous => rfl
  | redo =>
    show (redo s).clipboard = s.clipboard
    rw [redo]
    cases hh : s.redoHistory.getLast? with
    | none => rfl
    | some next => rfl

theorem clipboard_preserved_ops (T : Trig) (ops : List Op) :
    ∀ s : EditorState, (∀ op ∈ ops, writesClipboard op = false) →
      (applyOps T s ops).clipboard = s.clipboard := by
  induction ops with
  | nil => exact fun s _ => rfl
  | cons op rest ih =>
    intro s hops
    rw [show applyOps T s (op :: rest) = applyOps T (applyOp T s op) rest from rfl]
    rw [ih (applyOp T s op) (fun o ho => hops o (List.mem_cons_of_mem _ ho))]
    exact clipboard_preserved T s op (hops op (by simp))

/-- C10: after `copySelection` on a nonempty selection, the clipboard holds
the value snapshot of the copy-time descendant closure together with the
copy-time selection, and it still holds exactly that snapshot after any
sequence of store operations that are not `copySelection`, `loadScene` or
`resetScene` (in particular after `updateElement` mutations of the
originals, `undo` and `redo`); a later `pasteClipboard` therefore clones
the values captured at copy time, not the mutated ones. -/
theorem clipboard_immutable_after_copy (T : Trig) (s : EditorState) (ops : List Op)
    (hsel : s.selection ≠ [])
    (hops : ∀ op ∈ ops, writesClipboard op = false) :
    (applyOps T (applyOp T s .copySelection) ops).clipboard =
      some ⟨copyBuffer s, s.selection⟩ := by
  have h0 : (applyOp T s .copySelection).clipboard = some ⟨copyBuffer s, s.selection⟩ := by
    show (copySelection s).clipboard = _
    rw [copySelection, if_neg (fun h => hsel (List.length_eq_zero.mp h))]
  rw [clipboard_preserved_ops T ops (applyOp T s .copySelection) hops, h0]

/-- A state with a nonempty selection for the C10 witness. -/
def c10State : EditorState := { initState with selection := ["a"] }

theorem clipboard_immutable_after_copy_witness :
    (applyOps trigFlat (applyOp trigFlat c10State .copySelection) [.undo, .redo]).clipboard =
      some ⟨copyBuffer c10State, c10State.selection⟩ :=
  clipboard_immutable_after_copy trigFlat c10State [.undo, .redo] (by decide) (by decide)

/-! ### Claim C8 -/

theorem lookupId_cons (q : ElemId × ElemId) (l : List (ElemId × ElemId)) (p : ElemId) :
    lookupId (q :: l) p = if (q.1 == p) = true then some q.2 else lookupId l p := by
  rw [lookupId, List.find?]
  cases h : q.1 == p with
  | true => simp [h]
  | false => simp [h, lookupId]

theorem getElement_cons (q : ElemId × SceneElement) (l : Elements) (p : ElemId) :
    getElement (q :: l) p = if (q.1 == p) = true then some q.2 else getElement l p := by
  rw [getElement, List.find?]
  cases h : q.1 == p with
  | true => simp [h]
  | false => simp [h, getElement]

theorem getElement_append (m1 m2 : Elements) (i : ElemId) :
    getElement (m1 ++ m2) i =
      match getElement m1 i with
      | some v => some v
      | none => getElement m2 i := by
  induction m1 with
  | nil => rfl
  | cons q l ih =>
    rw [List.cons_append, getElement_cons, getElement_cons]
    cases h : q.1 == i with
    | true => simp
    | false => simp [ih]

theorem upsertPair_fresh (m : List (ElemId × ElemId)) (k v : ElemId)
    (h : m.any (fun p => p.1 == k) = false) : upsertPair m k v = m ++ [(k, v)] := by
  rw [upsertPair, if_neg (by simp [h])]

theorem foldl_upsert_fresh (l : List (ElemId × ElemId)) :
    ∀ acc : List (ElemId × ElemId), (l.map (·.1)).Nodup →
      (∀ q ∈ l, acc.any (fun p => p.1 == q.1) = false) →
      l.foldl (fun m p => upsertPair m p.1 p.2) acc = acc ++ l := by
  induction l with
  | nil => intro acc _ _; simp
  | cons q l ih =>
    intro acc hnd hacc
    have hq : q.1 ∉ l.map (·.1) := (List.nodup_cons.mp (by simpa using hnd)).1
    have hacc2 : ∀ r ∈ l, (acc ++ [(q.1, q.2)]).any (fun p => p.1 == r.1) = false := by
      intro r hr
      rw [List.any_append]
      have h1 : (q.1 == r.1) = false := by
        refine beq_false_of_ne (fun h => hq ?_)
        rw [h]
        exact List.mem_map_of_mem _ hr
      simp [hacc r (List.mem_cons_of_mem _ hr), h1]
    rw [List.foldl_cons, upsertPair_fresh acc q.1 q.2 (hacc q (by simp))]
    rw [ih (acc ++ [(q.1, q.2)]) (List.nodup_cons.mp (by simpa using hnd)).2 hacc2]
    simp

theorem mkIdMap_eq_zip (srcIds freshIds : List ElemId) (hnd : srcIds.Nodup)
    (hlen : srcIds.length ≤ freshIds.length) :
    mkIdMap srcIds freshIds = List.zip srcIds freshIds := by
  rw [mkIdMap]
  have hfst : (List.zip srcIds freshIds).map (·.1) = srcIds := by
    simpa using List.map_fst_zip srcIds freshIds hlen
  rw [foldl_upsert_fresh _ [] (by rw [hfst]; exact hnd) (fun q _ => rfl)]
  simp

theorem lookupId_zip_get :
    ∀ (srcIds freshIds : List ElemId) (n : Nat) (a f : ElemId),
      srcIds.Nodup → srcIds.get? n = some a → freshIds.get? n = some f →
      lookupId (List.zip srcIds freshIds) a = some f := by
  intro srcIds
  induction srcIds with
  | nil => intro fresh n a f _ h _; simp at h
  | cons x rest ih =>
    intro freshIds n a f hnd ha hf
    cases freshIds with
    | nil => simp at hf
    | cons y fr =>
      cases n with
      | zero =>
        simp only [List.get?] at ha hf
        injection ha with ha2
        injection hf with hf2
        subst ha2
        subst hf2
        rw [List.zip_cons_cons, lookupId_cons]
        simp
      | succ n =>
        simp only [List.get?] at ha hf
        have ha2 : a ∈ rest := List.get?_mem ha
        have hx : x ≠ a := by
          intro h
          exact (List.nodup_cons.mp hnd).1 (h ▸ ha2)
        rw [List.zip_cons_cons, lookupId_cons]
        simp only [beq_false_of_ne hx, Bool.false_eq_true, if_false]
        exact ih fr n a f (List.nodup_cons.mp hnd).2 ha hf

theorem lookupId_zip_inv :
    ∀ (srcIds freshIds : List ElemId) (p f : ElemId),
      lookupId (List.zip srcIds freshIds) p = some f →
      ∃ n, srcIds.get? n = some p ∧ freshIds.get? n = some f := by
  intro srcIds
  induction srcIds with
  | nil => intro fresh p f h; simp [lookupId] at h
  | cons x rest ih =>
    intro freshIds p f h
    cases freshIds with
    | nil => simp [lookupId] at h
    | cons y fr =>
      rw [List.zip_cons_cons, lookupId_cons] at h
      by_cases hx : x = p
      · subst hx
        simp only [beq_self_eq_true, if_true] at h
        injection h with h2
        exact ⟨0, rfl, by rw [h2]; rfl⟩
      · simp only [beq_false_of_ne hx, Bool.false_eq_true, if_false] at h
        obtain ⟨n, h1, h2⟩ := ih fr p f h
        exact ⟨n + 1, h1, h2⟩

theorem getElement_map_pair (cl : List SceneElement) :
    ∀ (k : Nat) (c : SceneElement), (cl.map (·.id)).Nodup → cl.get? k = some c →
      getElement (cl.map (fun e => (e.id, e))) c.id = some c := by
  induction cl with
  | nil => intro k c _ h; simp at h
  | cons e rest ih =>
    intro k c hnd hk
    cases k with
    | zero =>
      injection hk with h
      subst h
      rw [List.map_cons, getElement_cons]
      simp
    | succ k =>
      simp only [List.get?] at hk
      have hc : c ∈ rest := List.get?_mem hk
      have hne : e.id ≠ c.id := by
        intro h
        have h2 : c.id ∈ rest.map (·.id) := List.mem_map_of_mem _ hc
        exact (List.nodup_cons.mp (by simpa using hnd)).1 (h ▸ h2)
      rw [List.map_cons, getElement_cons]
      simp only [beq_false_of_ne hne, Bool.false_eq_true, if_false]
      exact ih k c (List.nodup_cons.mp (by simpa using hnd)).2 hk

theorem cloneList_ids (idMap : List (ElemId × ElemId)) (off : Vec3) :
    ∀ (src : List SceneElement) (q : ℚ),
      (cloneList idMap off q src).map (·.id) =
        src.map (fun e => (lookupId idMap e.id).getD e.id) := by
  intro src
  induction src with
  | nil => intro q; rfl
  | cons e rest ih =>
    intro q
    rw [cloneList, List.map_cons, List.map_cons, ih (q + 1)]

theorem cloneList_get? (idMap : List (ElemId × ElemId)) (off : Vec3) :
    ∀ (src : List SceneElement) (q : ℚ) (k : Nat) (e : SceneElement),
      src.get? k = some e →
      (cloneList idMap off q src).get? k = some
        { e with
          id := (lookupId idMap e.id).getD e.id
          order := some (q + k)
          parentId := e.parentId.bind (lookupId idMap)
          children := e.children.map (List.map (fun c => (lookupId idMap c).getD c))
          position := addV e.position off } := by
  intro src
  induction src with
  | nil => intro q k e h; simp at h
  | cons x rest ih =>
    intro q k e hk
    cases k with
    | zero =>
      injection hk with h
      subst h
      rw [cloneList]
      simp [cloneElement_eq]
    | succ k =>
      simp only [List.get?] at hk
      rw [cloneList]
      simp only [List.get?]
      rw [ih (q + 1) k e hk]
      have hq : q + 1 + (k : ℚ) = q + ((k : ℕ) + 1 : ℕ) := by
        push_cast
        ring
      rw [hq]

theorem setElement_fresh (m : Elements) (i : ElemId) (v : SceneElement)
    (h : getElement m i = none) : setElement m i v = m ++ [(i, v)] := by
  have h2 : m.any (fun p => p.1 == i) = false := by
    rw [any_key_eq_isSome, h]
    rfl
  rw [setElement, if_neg (by simp [h2])]

theorem foldl_setElement_fresh (cl : List SceneElement) :
    ∀ m : Elements, (∀ e ∈ cl, getElement m e.id = none) → (cl.map (·.id)).Nodup →
      cl.foldl (fun acc e => setElement acc e.id e) m = m ++ cl.map (fun e => (e.id, e)) := by
  induction cl with
  | nil => intro m _ _; simp
  | cons e rest ih =>
    intro m hfr hnd
    have hnd2 : (∀ x ∈ rest, ¬ x.id = e.id) ∧ (rest.map (·.id)).Nodup := by
      simpa using hnd
    rw [List.foldl_cons, setElement_fresh m e.id e (hfr e (by simp))]
    have hfr2 : ∀ x ∈ rest, getElement (m ++ [(e.id, e)]) x.id = none := by
      intro x hx
      rw [getElement_append]
      have hne : e.id ≠ x.id := fun h => hnd2.1 x hx h.symm
      rw [hfr x (List.mem_cons_of_mem _ hx), getElement_cons]
      simp [beq_false_of_ne hne, getElement]
    rw [ih (m ++ [(e.id, e)]) hfr2 hnd2.2]
    simp

theorem cloneList_ids_eq_fresh (src : List SceneElement) (freshIds : List ElemId)
    (off : Vec3) (q : ℚ)
    (hnd : (src.map (·.id)).Nodup)
    (hlen : freshIds.length = src.length) :
    (cloneList (mkIdMap (src.map (·.id)) freshIds) off q src).map (·.id) = freshIds := by
  rw [cloneList_ids]
  rw [mkIdMap_eq_zip (src.map (·.id)) freshIds hnd (by simp [hlen])]
  apply List.ext_get?
  intro n
  rw [List.get?_map]
  by_cases hn : n < src.length
  · have hn2 : n < freshIds.length := by omega
    have hs : src.get? n = some (src.get ⟨n, hn⟩) := List.get?_eq_get hn
    have hf : freshIds.get? n = some (freshIds.get ⟨n, hn2⟩) := List.get?_eq_get hn2
    rw [hs, hf]
    have hl := lookupId_zip_get (src.map (·.id)) freshIds n (src.get ⟨n, hn⟩).id
      (freshIds.get ⟨n, hn2⟩) hnd (by rw [List.get?_map, hs]; rfl) hf
    have hl2 : lookupId ((List.map (fun x => x.id) src).zip freshIds) src[n].id =
        some freshIds[n] := hl
    simp [hl2]
  · have hs : src.get? n = none := List.get?_eq_none.mpr (by omega)
    have hf : freshIds.get? n = none := List.get?_eq_none.mpr (by omega)
    rw [hs, hf]
    rfl

/-- C8: `copySelection` then `pasteClipboard` with fresh, pairwise-distinct
ids (the `uuidv4()` outputs, hypotheses `hnodup`/`hfresh`) appends exactly
the fresh keys to the table (disjoint from every id already present,
originals and prior pastes alike); each pasted element is the copy-time
element with its fresh id, order sequential from one past the pre-paste
maximum, position offset by the fixed (1/2, 1/2, 1/2) nudge, and
parent/children references remapped through the single id map; and the
parent edges inside the pasted set are isomorphic to the source's. -/
theorem copy_paste_clone_spec (T : Trig) (s : EditorState) (freshIds : List ElemId)
    (hsel : s.selection ≠ [])
    (hlen : freshIds.length = (copyBuffer s).length)
    (hbuf : copyBuffer s ≠ [])
    (hnodup : freshIds.Nodup)
    (hfresh : ∀ f ∈ freshIds, getElement s.elements f = none)
    (hsrc : ((copyBuffer s).map (·.id)).Nodup) :
    (pasteClipboard (applyOp T s .copySelection) freshIds).elements.map (·.1) =
        s.elements.map (·.1) ++ freshIds ∧
    (∀ (k : Nat) (e : SceneElement) (f : ElemId),
      (copyBuffer s).get? k = some e → freshIds.get? k = some f →
      getElement (pasteClipboard (applyOp T s .copySelection) freshIds).elements f = some
        { e with
          id := f
          order := some (getNextOrder s.elements + k)
          parentId := e.parentId.bind
            (lookupId (mkIdMap ((copyBuffer s).map (·.id)) freshIds))
          children := e.children.map (List.map (fun c =>
            (lookupId (mkIdMap ((copyBuffer s).map (·.id)) freshIds) c).getD c))
          position := addV e.position NUDGE }) ∧
    (∀ (k l : Nat) (e el : SceneElement) (f fl : ElemId),
      (copyBuffer s).get? k = some e → (copyBuffer s).get? l = some el →
      freshIds.get? k = some f → freshIds.get? l = some fl →
      (e.parentId.bind (lookupId (mkIdMap ((copyBuffer s).map (·.id)) freshIds)) = some fl ↔
        e.parentId = some el.id)) := by
  have h1 : applyOp T s .copySelection =
      { s with clipboard := some ⟨copyBuffer s, s.selection⟩ } := by
    show copySelection s = _
    rw [copySelection, if_neg (fun h => hsel (List.length_eq_zero.mp h))]
  have hids : (cloneList (mkIdMap ((copyBuffer s).map (·.id)) freshIds) NUDGE
      (getNextOrder s.elements) (copyBuffer s)).map (·.id) = freshIds :=
    cloneList_ids_eq_fresh (copyBuffer s) freshIds NUDGE (getNextOrder s.elements) hsrc hlen
  have hclnd : ((cloneList (mkIdMap ((copyBuffer s).map (·.id)) freshIds) NUDGE
      (getNextOrder s.elements) (copyBuffer s)).map (·.id)).Nodup := by
    rw [hids]
    exact hnodup
  have hclfr : ∀ e ∈ cloneList (mkIdMap ((copyBuffer s).map (·.id)) freshIds) NUDGE
      (getNextOrder s.elements) (copyBuffer s), getElement s.elements e.id = none := by
    intro e he
    apply hfresh
    rw [← hids]
    exact List.mem_map_of_mem _ he
  have helems : (pasteClipboard (applyOp T s .copySelection) freshIds).elements =
      s.elements ++ (cloneList (mkIdMap ((copyBuffer s).map (·.id)) freshIds) NUDGE
        (getNextOrder s.elements) (copyBuffer s)).map (fun e => (e.id, e)) := by
    rw [h1, pasteClipboard]
    dsimp only
    rw [if_neg (fun h => hbuf (List.length_eq_zero.mp h))]
    dsimp only [buildClonedElements]
    exact foldl_setElement_fresh _ s.elements hclfr hclnd
  refine ⟨?_, ?_, ?_⟩
  · rw [helems, List.map_append]
    congr 1
    rw [List.map_map]
    exact hids
  · intro k e f hk hf
    rw [helems, getElement_append, hfresh f (List.get?_mem hf)]
    have hck := cloneList_get? (mkIdMap ((copyBuffer s).map (·.id)) freshIds) NUDGE
      (copyBuffer s) (getNextOrder s.elements) k e hk
    have hmp := getElement_map_pair
      (cloneList (mkIdMap ((copyBuffer s).map (·.id)) freshIds) NUDGE
        (getNextOrder s.elements) (copyBuffer s)) k _ hclnd hck
    have hlook : lookupId (mkIdMap ((copyBuffer s).map (·.id)) freshIds) e.id = some f := by
      rw [mkIdMap_eq_zip _ _ hsrc (by simp [hlen])]
      exact lookupId_zip_get _ _ k e.id f hsrc (by rw [List.get?_map, hk]; rfl) hf
    rw [hlook] at hmp
    simpa using hmp
  · intro k l e el f fl hk hl hf hfl
    have hmap : mkIdMap ((copyBuffer s).map (·.id)) freshIds =
        List.zip ((copyBuffer s).map (·.id)) freshIds :=
      mkIdMap_eq_zip _ _ hsrc (by simp [hlen])
    constructor
    · intro h
      obtain ⟨p, hp, hlk⟩ := Option.bind_eq_some.mp h
      rw [hmap] at hlk
      obtain ⟨n, hn1, hn2⟩ := lookupId_zip_inv _ _ p fl hlk
      have hnlt : n < freshIds.length := by
        by_contra hge
        rw [List.get?_eq_none.mpr (by omega)] at hn2
        exact Option.noConfusion hn2
      have hllt : l < freshIds.length := by
        by_contra hge
        rw [List.get?_eq_none.mpr (by omega)] at hfl
        exact Option.noConfusion hfl
      have hnl : n = l := List.get?_inj hnlt hnodup (hn2.trans hfl.symm)
      subst hnl
      rw [List.get?_map, hl] at hn1
      injection hn1 with hn1
      exact hp.trans (congrArg some hn1.symm)
    · intro h
      rw [h, Option.some_bind]
      rw [hmap]
      exact lookupId_zip_get _ _ l el.id fl hsrc (by rw [List.get?_map, hl]; rfl) hfl

/-- The elements of the C8 witness scenario: a group with one child. -/
def c8Els : Elements :=
  [("g",
    { id := "g", name := "G", type := .group, order := some 0,
      position := v3 0 0 0, rotation := v3 0 0 0, scale := v3 1 1 1, color := "#3b82f6",
      children := some ["c"] }),
   ("c",
    { id := "c", name := "C", type := .box, order := some 1,
      position := v3 1 2 3, rotation := v3 0 0 0, scale := v3 1 1 1, color := "#3b82f6",
      parentId := some "g" })]

/-- The C8 witness state: the group is selected. -/
def c8State : EditorState := { initState with elements := c8Els, selection := ["g"] }

theorem copy_paste_clone_spec_witness :
    (pasteClipboard (applyOp trigFlat c8State .copySelection) ["f1", "f2"]).elements.map (·.1) =
      c8State.elements.map (·.1) ++ ["f1", "f2"] :=
  (copy_paste_clone_spec trigFlat c8State ["f1", "f2"] (by decide) (by decide) (by decide)
    (by decide) (by decide) (by decide)).1

/-! ### Claim C4 -/

/-- Execution of `subtractSelection` once the selection is known to sort to
the explicit pair `[a, b]`: the created subtraction carries
`children = [a, b]`, both operands point at it, and it is selected. -/
theorem subtract_sorted_case (T : Trig) (s : EditorState) (csgId a b : ElemId)
    (ea eb : SceneElement)
    (hsel2 : s.selection.length = 2)
    (hcan : canSubtract s = true)
    (hsort : stableSortByKey
      (fun x =>
        match getElement s.elements x with
        | some e => e.order.getD 0
        | none => 0) s.selection = [a, b])
    (ha : getElement s.elements a = some ea) (hb : getElement s.elements b = some eb)
    (hab : a ≠ b) (hca : csgId ≠ a) (hcb : csgId ≠ b) :
    (∃ csg, getElement (subtractSelection T s csgId).elements csgId = some csg ∧
      csg.type = .subtraction ∧ csg.children = some [a, b]) ∧
    (∃ x, getElement (subtractSelection T s csgId).elements a = some x ∧
      x.parentId = some csgId) ∧
    (∃ y, getElement (subtractSelection T s csgId).elements b = some y ∧
      y.parentId = some csgId) ∧
    (subtractSelection T s csgId).selection = [csgId] := by
  rw [subtractSelection, if_neg (by omega), if_neg (by simp [hcan]), hsort]
  dsimp only [List.getD, List.get?, List.foldl, Option.getD]
  simp only [ha]
  rw [getElement_setElement_ne _ _ _ _ (Ne.symm hab)]
  simp only [hb]
  have hac : a ≠ csgId := Ne.symm hca
  have hbc : b ≠ csgId := Ne.symm hcb
  simp [getElement_setElement, hac, hbc, hab]

/-- C4: on a selection of exactly two primitive-kind elements with distinct
orders, `subtractSelection` creates a subtraction whose `children` lists
the lower-order element first regardless of the selection order, reparents
both operands to it, and selects it.  The freshness of the generated id
(`uuidv4` in the source) is the hypothesis `hfresh`. -/
theorem subtract_operand_order (T : Trig) (s : EditorState) (i j csgId : ElemId)
    (ei ej : SceneElement) (oi oj : ℚ)
    (hsel : s.selection = [i, j])
    (hi : getElement s.elements i = some ei)
    (hj : getElement s.elements j = some ej)
    (hti : PRIMITIVE_TYPES.contains ei.type = true)
    (htj : PRIMITIVE_TYPES.contains ej.type = true)
    (hoi : ei.order = some oi) (hoj : ej.order = some oj)
    (hne : oi ≠ oj)
    (hfresh : getElement s.elements csgId = none) :
    (∃ csg, getElement (subtractSelection T s csgId).elements csgId = some csg ∧
      csg.type = .subtraction ∧
      csg.children = some (if oi < oj then [i, j] else [j, i])) ∧
    (∃ x, getElement (subtractSelection T s csgId).elements i = some x ∧
      x.parentId = some csgId) ∧
    (∃ y, getElement (subtractSelection T s csgId).elements j = some y ∧
      y.parentId = some csgId) ∧
    (subtractSelection T s csgId).selection = [csgId] := by
  have hij : i ≠ j := by
    intro h
    rw [h, hj] at hi
    injection hi with hee
    rw [hee, hoi] at hoj
    injection hoj with ho
    exact hne ho
  have hci : csgId ≠ i := by
    intro h
    rw [h, hi] at hfresh
    exact Option.noConfusion hfresh
  have hcj : csgId ≠ j := by
    intro h
    rw [h, hj] at hfresh
    exact Option.noConfusion hfresh
  have hsel2 : s.selection.length = 2 := by rw [hsel]; rfl
  have hcan : canSubtract s = true := by
    rw [canSubtract, hsel]
    simp only [List.all_cons, List.all_nil, hi, hj, Bool.and_true, Bool.and_eq_true]
    exact ⟨hti, htj⟩
  rcases lt_or_gt_of_ne hne with hlt | hgt
  · have hsort : stableSortByKey
        (fun x =>
          match getElement s.elements x with
          | some e => e.order.getD 0
          | none => 0) s.selection = [i, j] := by
      rw [hsel]
      simp [stableSortByKey, insertByKey, hi, hj, hoi, hoj, hlt.le]
    have h := subtract_sorted_case T s csgId i j ei ej hsel2 hcan hsort hi hj hij hci hcj
    rw [if_pos hlt]
    exact ⟨h.1, h.2.1, h.2.2.1, h.2.2.2⟩
  · have hsort : stableSortByKey
        (fun x =>
          match getElement s.elements x with
          | some e => e.order.getD 0
          | none => 0) s.selection = [j, i] := by
      rw [hsel]
      simp [stableSortByKey, insertByKey, hi, hj, hoi, hoj, not_le_of_gt hgt]
    have h := subtract_sorted_case T s csgId j i ej ei hsel2 hcan hsort hj hi
      (Ne.symm hij) hcj hci
    rw [if_neg (lt_asymm hgt)]
    exact ⟨h.1, h.2.2.1, h.2.1, h.2.2.2⟩

/-- The elements of the C4 witness scenario (selected in reverse order). -/
def c4Els : Elements :=
  [("a",
    { id := "a", name := "A", type := .box, order := some 0,
      position := v3 0 0 0, rotation := v3 0 0 0, scale := v3 1 1 1, color := "#3b82f6" }),
   ("b",
    { id := "b", name := "B", type := .sphere, order := some 1,
      position := v3 0 0 0, rotation := v3 0 0 0, scale := v3 1 1 1, color := "#3b82f6" })]

/-- The C4 witness state: selection lists the higher-order element first. -/
def c4State : EditorState :=
  { initState with elements := c4Els, selection := ["b", "a"] }

theorem subtract_operand_order_witness :
    (∃ csg, getElement (subtractSelection trigFlat c4State "s").elements "s" = some csg ∧
      csg.type = .subtraction ∧
      csg.children = some (if (1 : ℚ) < 0 then ["b", "a"] else ["a", "b"])) ∧
    (∃ x, getElement (subtractSelection trigFlat c4State "s").elements "b" = some x ∧
      x.parentId = some "s") ∧
    (∃ y, getElement (subtractSelection trigFlat c4State "s").elements "a" = some y ∧
      y.parentId = some "s") ∧
    (subtractSelection trigFlat c4State "s").selection = ["s"] :=
  subtract_operand_order trigFlat c4State "b" "a" "s"
    { id := "b", name := "B", type := .sphere, order := some 1,
      position := v3 0 0 0, rotation := v3 0 0 0, scale := v3 1 1 1, color := "#3b82f6" }
    { id := "a", name := "A", type := .box, order := some 0,
      position := v3 0 0 0, rotation := v3 0 0 0, scale := v3 1 1 1, color := "#3b82f6" }
    1 0 (by decide) (by decide) (by decide) (by decide) (by decide) (by decide) (by decide)
    (by decide) (by decide)

/-! ### Claim C5 -/

/-- C5: `subtractSelection` leaves the entire store state unchanged when
the selection does not hold exactly two ids, or holds an id whose element
kind is `group`, `subtraction` or `mesh`. -/
theorem subtract_precondition_noop (T : Trig) (s : EditorState) (csgId : ElemId)
    (h : s.selection.length ≠ 2 ∨
      ∃ i ∈ s.selection, ∃ e, getElement s.elements i = some e ∧
        (e.type = .group ∨ e.type = .subtraction ∨ e.type = .mesh)) :
    subtractSelection T s csgId = s := by
  unfold subtractSelection
  by_cases hlen : s.selection.length ≠ 2
  · rw [if_pos hlen]
  · rw [if_neg hlen]
    rcases h with h | ⟨i, hi, e, he, ht⟩
    · exact absurd h hlen
    have hcan : ¬ (canSubtract s = true) := by
      unfold canSubtract
      rw [List.all_eq_true]
      intro hall
      have hc := hall i hi
      simp only [he] at hc
      rcases ht with h | h | h <;> simp [PRIMITIVE_TYPES, h] at hc
    rw [Bool.not_eq_true] at hcan
    rw [hcan]
    simp

theorem subtract_precondition_noop_witness :
    subtractSelection trigFlat initState "x" = initState :=
  subtract_precondition_noop trigFlat initState "x" (Or.inl (by decide))

/-! ### Claim C6 -/

/-- Box A of the C6 scenario, at world position (2,0,0). -/
def c6A : SceneElement :=
  { id := "a", name := "A", type := .box, order := some 0,
    position := v3 2 0 0, rotation := v3 0 0 0, scale := v3 1 1 1, color := "#3b82f6" }

/-- Box B of the C6 scenario, at world position (4,0,0). -/
def c6B : SceneElement :=
  { id := "b", name := "B", type := .box, order := some 1,
    position := v3 4 0 0, rotation := v3 0 0 0, scale := v3 1 1 1, color := "#3b82f6" }

/-- The C6 scenario table. -/
def c6Els : Elements := [("a", c6A), ("b", c6B)]

/-- The C6 scenario state: the two root boxes, both selected. -/
def c6State : EditorState :=
  { initState with elements := c6Els, selection := ["a", "b"] }

/-- The C6 scenario after grouping. -/
def c6Grouped : EditorState := groupSelection trigFlat c6State "g"

theorem c6_getA : getElement c6Els "a" = some c6A := by decide

theorem c6_getB : getElement c6Els "b" = some c6B := by decide

theorem c6_wA : getWorldTransform trigFlat c6Els c6A = ⟨v3 2 0 0, v3 0 0 0, v3 1 1 1⟩ := by
  decide

theorem c6_wB : getWorldTransform trigFlat c6Els c6B = ⟨v3 4 0 0, v3 0 0 0, v3 1 1 1⟩ := by
  decide

theorem c6_closure : collectDescendantIds c6Els ["a", "b"] = ["a", "b"] := by decide

theorem c6_center : getSelectionCenter trigFlat c6Els ["a", "b"] true = v3 3 0 0 := by
  rw [getSelectionCenter, idsForBounds]
  simp only [if_true, c6_closure, List.foldl_cons, List.foldl_nil, boundsStep,
    c6_getA, c6_getB, c6_wA, c6_wB]
  simp [c6A, c6B, getElementHalfSize, mulV, subV, addV, minV, maxV, midV, v3,
    min_def, max_def]
  all_goals norm_num

/-- C6: grouping the two root unit boxes at (2,0,0) and (4,0,0) creates the
group at the bounding-box center (3,0,0) with children [a, b]; A's stored
position becomes (-1,0,0) and B's (1,0,0), both with `parentId` the group,
and the group becomes the sole selection. -/
theorem group_scenario_center_and_locals :
    getElement c6Grouped.elements "a" =
      some { c6A with parentId := some "g", position := v3 (-1) 0 0 } ∧
    getElement c6Grouped.elements "b" =
      some { c6B with parentId := some "g", position := v3 1 0 0 } ∧
    (getElement c6Grouped.elements "g").map (fun g => (g.type, g.position, g.parentId, g.children)) =
      some (ElementType.group, v3 3 0 0, none, some ["a", "b"]) ∧
    c6Grouped.selection = ["g"] := by
  have hsel : c6State.selection = ["a", "b"] := rfl
  have hels : c6State.elements = c6Els := rfl
  rw [c6Grouped, groupSelection]
  rw [if_neg (by decide : ¬ (c6State.selection.length < 2))]
  simp only [hsel, hels, c6_center, List.foldl_cons, List.foldl_nil, c6_getA, c6_wA]
  simp only [getElement_setElement]
  simp [c6_getB, c6_wB]
  all_goals simp [getElement_setElement, c6A, c6B, subV, v3]
  all_goals norm_num

end SceneStore

